import Mathlib

/-!
HexBeat — audio analysis and level generation, shallow embedding

This file embeds the audio-analysis pipeline (`src/js/audio.js`), the
procedural level generator and playback scheduler
(`src/js/levelGenerator.js`) and the relevant game-state transitions
(`src/js/game.js`) of the HexBeat repository, and proves the testable
properties of its specification against that embedding.

Modelling conventions:
* JavaScript numbers are modelled as exact rationals (`ℚ`); decimal
  literals such as `0.025` are the exact rationals they denote.
* `Math.sqrt` is irrational-valued, hence not a function `ℚ → ℚ`.  The
  energy analyzer therefore takes the square-root function as an explicit
  parameter `sqrtFn`; theorems assume only properties the real square
  root enjoys (non-negativity on non-negative inputs), and concrete
  evaluations instantiate it with `ratSqrt`, which agrees with the real
  square root on the perfect squares appearing in those evaluations.
* `Math.random()` is modelled as an injectable stream `rng : ℕ → ℚ`
  together with a cursor that advances by one at each call, in source
  order.  Theorems that need it assume `∀ n, 0 ≤ rng n ∧ rng n < 1`.
* JavaScript `while` loops become recursion; loops whose source
  termination relies on a positive step carry the positivity test inside
  the recursion guard (the JS code diverges in those degenerate cases,
  which are unreachable in the application).
* `Array.prototype.sort` with comparator `(a,b) => a.spawnTime - b.spawnTime`
  is modelled by an insertion sort on the same key; the claims proved
  here depend only on the result being a permutation sorted by that key.
-/

/-! ## Data model -/

/-- One entry of `AudioManager.energyMap`: `{time, bass, mid, treble, total}`
(`audio.js` line 18). -/
structure EnergySample where
  time : ℚ
  bass : ℚ
  mid : ℚ
  treble : ℚ
  total : ℚ
deriving DecidableEq, Repr

/-- One entry of `LevelGenerator.events`:
`{time, spawnTime, gaps, speed, thickness}` (`levelGenerator.js` lines 150-156). -/
structure SpawnEvent where
  time : ℚ
  spawnTime : ℚ
  gaps : List ℕ
  speed : ℚ
  thickness : ℚ
deriving DecidableEq, Repr

/-- The analysis artifacts of an `AudioManager` consumed by
`LevelGenerator.generate`: `bpm`, `duration`, `beatTimes`, `energyMap`. -/
structure AudioData where
  bpm : ℕ
  duration : ℚ
  beatTimes : List ℚ
  energyMap : List EnergySample
deriving DecidableEq, Repr

/-- A concrete square root on `ℚ`, exact whenever numerator and
denominator are perfect squares; used to instantiate the `sqrtFn`
parameter at concrete inputs. -/
def ratSqrt (x : ℚ) : ℚ :=
  (Nat.sqrt x.num.toNat : ℚ) / (Nat.sqrt x.den : ℚ)

/-! ## Energy analyzer (`AudioManager._analyzeEnergy`, audio.js lines 92-149) -/

/-- The energy sample computed for the window starting at sample index `i`
(audio.js lines 102-134): the window is truncated to `fftSize = 512`
samples, each band sums the squares of the samples whose normalized
position falls in its range (`< 0.15` bass, `< 0.5` mid, rest treble),
and each band value is `sqrt(sum / len) * 4`. -/
def windowSample (sqrtFn : ℚ → ℚ) (rate : ℕ) (i : ℕ) (window : List ℚ) : EnergySample :=
  let len := min window.length 512
  let part := window.take len
  let sq := part.map (fun v => v * v)
  let total := sq.sum
  let bass := ((sq.enum.filter (fun p => p.1 * 20 < len * 3)).map (·.2)).sum
  let mid := ((sq.enum.filter (fun p => len * 3 ≤ p.1 * 20 ∧ p.1 * 2 < len)).map (·.2)).sum
  let treble := ((sq.enum.filter (fun p => len ≤ p.1 * 2)).map (·.2)).sum
  let norm : ℚ := 1 / len
  { time := (i : ℚ) / (rate : ℚ)
    bass := sqrtFn (bass * norm) * 4
    mid := sqrtFn (mid * norm) * 4
    treble := sqrtFn (treble * norm) * 4
    total := sqrtFn (total * norm) * 4 }

/-- The window loop of `_analyzeEnergy` (audio.js line 101):
`for (i = 0; i < channelData.length - windowSize; i += hopSize)`.
The `0 < hop` test only guards against the divergent `hopSize = 0` case. -/
def energyLoop (sqrtFn : ℚ → ℚ) (rate w hop : ℕ) (data : List ℚ) (i : ℕ) :
    List EnergySample :=
  if h : 0 < hop ∧ i + w < data.length then
    windowSample sqrtFn rate i ((data.drop i).take w) ::
      energyLoop sqrtFn rate w hop data (i + hop)
  else []
termination_by data.length - i
decreasing_by omega

/-- The normalization pass of `_analyzeEnergy` (audio.js lines 137-148):
each band is divided by `Math.max(...band values, 0.001)`. -/
def normalizeEnergyMap (m : List EnergySample) : List EnergySample :=
  let maxTotal := (m.map (·.total)).foldr max (1/1000)
  let maxBass := (m.map (·.bass)).foldr max (1/1000)
  let maxMid := (m.map (·.mid)).foldr max (1/1000)
  let maxTreble := (m.map (·.treble)).foldr max (1/1000)
  m.map (fun e =>
    { e with
      total := e.total / maxTotal
      bass := e.bass / maxBass
      mid := e.mid / maxMid
      treble := e.treble / maxTreble })

/-- `AudioManager._analyzeEnergy` (audio.js lines 92-149):
`windowSize = floor(rate * 0.05)`, `hopSize = floor(rate * 0.025)`. -/
def analyzeEnergy (sqrtFn : ℚ → ℚ) (rate : ℕ) (data : List ℚ) : List EnergySample :=
  normalizeEnergyMap (energyLoop sqrtFn rate (rate / 20) (rate / 40) data 0)

/-- `AudioManager.getEnergyAt` (audio.js lines 355-362). -/
def getEnergyAt (A : AudioData) (time : ℚ) : EnergySample :=
  match A.energyMap with
  | [] => ⟨0, 0, 0, 0, 0⟩
  | e0 :: rest =>
    let m := e0 :: rest
    let idx : ℤ := Int.floor (time / (1/40 : ℚ))
    if h : 0 ≤ idx ∧ idx.toNat < m.length then m.get ⟨idx.toNat, h.2⟩
    else m.getLast (by simp [m])

/-! ## Tempo detector (`AudioManager._detectBPM`, audio.js lines 151-213) -/

/-- The energy loop of `_detectBPM` (audio.js lines 159-165): mean-square
energy of consecutive windows of `w` samples, stepping by `w`.  The
`0 < w` test only guards against the divergent `windowSize = 0` case. -/
def bpmEnergies (w : ℕ) (data : List ℚ) : List ℚ :=
  if h : 0 < w ∧ w < data.length then
    (((data.take w).map (fun v => v * v)).sum / (w : ℚ)) :: bpmEnergies w (data.drop w)
  else []
termination_by data.length
decreasing_by simp; omega

/-- The peak-picking loop of `_detectBPM` (audio.js lines 168-182):
`i` ranges over `[avgWindow, length - avgWindow)` with `avgWindow = 40`,
a peak must exceed `1.5 ×` the mean of the surrounding 80 windows and
both immediate neighbours. -/
def bpmPeaks (es : List ℚ) : List ℕ :=
  (List.range es.length).filter (fun i =>
    40 ≤ i ∧ i + 40 < es.length ∧
    (let localAvg := (((List.range 80).map (fun j => es.getD (i - 40 + j) 0)).sum) / 80
     localAvg * (3/2) < es.getD i 0 ∧
       es.getD (i - 1) 0 < es.getD i 0 ∧ es.getD (i + 1) 0 < es.getD i 0))

/-- Inter-peak intervals in seconds, kept only when in `(0.25, 2.0)`
(audio.js lines 190-196). -/
def bpmIntervals (w : ℕ) (rate : ℕ) (peaks : List ℕ) : List ℚ :=
  ((peaks.zip peaks.tail).map
      (fun p => ((p.2 : ℚ) - (p.1 : ℚ)) * (w : ℚ) / (rate : ℚ))).filter
    (fun x => (1/4 : ℚ) < x ∧ x < 2)

/-- Insertion of a rational into a list sorted ascending; models one step
of `intervals.sort((a, b) => a - b)` (audio.js line 204). -/
def insertRat (x : ℚ) : List ℚ → List ℚ
  | [] => [x]
  | y :: ys => if y ≤ x then y :: insertRat x ys else x :: y :: ys

/-- `intervals.sort((a, b) => a - b)`: numeric ascending sort, modelled as
insertion sort (only the sorted-permutation property is used). -/
def sortRat : List ℚ → List ℚ
  | [] => []
  | x :: xs => insertRat x (sortRat xs)

/-- The octave-raising loop `while (bpm < 80) bpm *= 2` (audio.js line 209).
The `0 < b` test only guards against the divergent non-positive case. -/
def doubleUp (b : ℚ) : ℚ :=
  if h : b < 80 ∧ 0 < b then doubleUp (2 * b) else b
termination_by Int.toNat (Int.ceil (80 / b))
decreasing_by
  have h1 : (1 : ℚ) < 80 / b := (one_lt_div h.2).mpr h.1
  have h2 : (1 : ℤ) < Int.ceil (80 / b) := Int.lt_ceil.mpr (by exact_mod_cast h1)
  have hle : Int.ceil (80 / (2 * b)) ≤ Int.ceil (80 / b) - 1 := by
    rw [show (80 / (2 * b) : ℚ) = (80 / b) / 2 by ring, Int.ceil_le]
    push_cast
    have hub : (80 / b : ℚ) ≤ (Int.ceil (80 / b) : ℚ) := Int.le_ceil _
    have h2' : (2 : ℚ) ≤ (Int.ceil (80 / b) : ℚ) := by exact_mod_cast h2
    linarith
  omega

/-- The octave-lowering loop `while (bpm > 180) bpm /= 2` (audio.js line 210). -/
def halveDown (b : ℚ) : ℚ :=
  if h : 180 < b then halveDown (b / 2) else b
termination_by Int.toNat (Int.ceil (b / 180))
decreasing_by
  have h1 : (1 : ℚ) < b / 180 := (one_lt_div (by norm_num : (0:ℚ) < 180)).mpr h
  have h2 : (1 : ℤ) < Int.ceil (b / 180) := Int.lt_ceil.mpr (by exact_mod_cast h1)
  have hle : Int.ceil (b / 2 / 180) ≤ Int.ceil (b / 180) - 1 := by
    rw [show (b / 2 / 180 : ℚ) = (b / 180) / 2 by ring, Int.ceil_le]
    push_cast
    have hub : (b / 180 : ℚ) ≤ (Int.ceil (b / 180) : ℚ) := Int.le_ceil _
    have h2' : (2 : ℚ) ≤ (Int.ceil (b / 180) : ℚ) := by exact_mod_cast h2
    linarith
  omega

/-- `AudioManager._detectBPM` (audio.js lines 151-213).  `Math.round`
rounds half toward `+∞` on the reachable (positive) values, which is
Mathlib's `round` (`round x = ⌊x + 1/2⌋`). -/
def detectBPM (rate : ℕ) (data : List ℚ) : ℤ :=
  let w := rate / 100
  let energies := bpmEnergies w data
  let peaks := bpmPeaks energies
  if peaks.length < 2 then 120
  else
    let intervals := bpmIntervals w rate peaks
    if hne : intervals = [] then 120
    else
      let sorted := sortRat intervals
      let medianInterval := sorted.getD (intervals.length / 2) 0
      round (halveDown (doubleUp (60 / medianInterval)))

/-! ## Beat grid builder (`AudioManager._detectBeats`, audio.js lines 215-232) -/

/-- The grid loop `for (t = firstBeatTime; t < duration; t += beatInterval)`
(audio.js lines 229-231).  The `0 < interval` test only guards against
the divergent non-positive-step case. -/
def beatGridAux (dur interval : ℚ) (t : ℚ) : List ℚ :=
  if h : t < dur ∧ 0 < interval then t :: beatGridAux dur interval (t + interval)
  else []
termination_by Int.toNat (Int.ceil ((dur - t) / interval))
decreasing_by
  have hne : interval ≠ 0 := ne_of_gt h.2
  have h1 : (0 : ℚ) < (dur - t) / interval := div_pos (by linarith [h.1]) h.2
  have hc : (0 : ℤ) < Int.ceil ((dur - t) / interval) := Int.ceil_pos.mpr h1
  have hstep : ((dur - (t + interval)) / interval : ℚ) = (dur - t) / interval - 1 := by
    field_simp
    ring
  have key : Int.ceil ((dur - (t + interval)) / interval)
      = Int.ceil ((dur - t) / interval) - 1 := by
    rw [hstep,
      show ((dur - t) / interval - 1 : ℚ) = (dur - t) / interval + ((-1 : ℤ) : ℚ) by
        push_cast; ring,
      Int.ceil_add_int]
    omega
  omega

/-- `AudioManager._detectBeats` (audio.js lines 215-232): `firstBeatTime`
is the time of the first energy sample with `total > 0.5` (0 when none),
then the grid steps by `60 / bpm` while below `duration`. -/
def detectBeats (bpm : ℕ) (energyMap : List EnergySample) (duration : ℚ) : List ℚ :=
  let beatInterval := 60 / (bpm : ℚ)
  let firstBeatTime :=
    ((energyMap.find? (fun e => (1/2 : ℚ) < e.total)).map (·.time)).getD 0
  beatGridAux duration beatInterval firstBeatTime

/-! ## Level generator (`levelGenerator.js`) -/

/-- `LevelGenerator.baseSpeed` (levelGenerator.js line 38). -/
def baseSpeed : ℚ := 6

/-- `LevelGenerator.spawnRadius` (levelGenerator.js line 39). -/
def spawnRadius : ℚ := 20

/-- Grace period (levelGenerator.js lines 55-56):
`spawnRadius / (baseSpeed * 0.7) + 2.0`. -/
def gracePeriod : ℚ := spawnRadius / (baseSpeed * (7/10)) + 2

/-- `Math.floor(r * n)`: random index into an `n`-element array drawn
from a random value `r`. -/
def jsIndex (r : ℚ) (n : ℕ) : ℕ := Int.toNat (Int.floor (r * (n : ℚ)))

/-- `Math.floor(Math.random() * HEX_SIDES)`: the random side index drawn
from a random value `r`. -/
def jsSide (r : ℚ) : ℕ := jsIndex r 6

namespace PATTERNS

/-- `PATTERNS.single` (levelGenerator.js line 11). -/
def single (side : ℕ) : List ℕ := [side % 6]

/-- `PATTERNS.opposite` (levelGenerator.js line 14). -/
def opposite (side : ℕ) : List ℕ := [side % 6, (side + 3) % 6]

/-- `PATTERNS.adjacent` (levelGenerator.js line 17). -/
def adjacent (side : ℕ) : List ℕ := [side % 6, (side + 1) % 6]

/-- `PATTERNS.halfOpen` (levelGenerator.js line 20). -/
def halfOpen (side : ℕ) : List ℕ := [side % 6, (side + 1) % 6, (side + 2) % 6]

/-- `PATTERNS.narrow` (levelGenerator.js line 23). -/
def narrow (side : ℕ) : List ℕ := [side % 6]

/-- `PATTERNS.wide` (levelGenerator.js line 26). -/
def wide (side : ℕ) : List ℕ := [side % 6, (side + 1) % 6, (side + 2) % 6]

/-- `PATTERNS.alternating` (levelGenerator.js line 29). -/
def alternating (side : ℕ) : List ℕ := [side % 6, (side + 2) % 6, (side + 4) % 6]

end PATTERNS

/-- The mutable state of the beat loop in `LevelGenerator.generate`
(levelGenerator.js lines 47-64): the accumulated `events`,
`lastEventTime`, `spiralDirection`, `patternPhase`, `lastGaps`, plus the
cursor `rix` into the `Math.random()` stream. -/
structure GenS where
  events : List SpawnEvent
  lastEventTime : ℚ
  spiralDirection : ℕ
  patternPhase : ℕ
  lastGaps : Option (List ℕ)
  rix : ℕ
deriving DecidableEq, Repr

/-- The passability fix-up (levelGenerator.js lines 129-138): when the
selected pattern shares no gap with the previous one, push one random
gap of the previous pattern.  `r` is the `Math.random()` value the
branch may consume. -/
def fixupPattern (lastGaps? : Option (List ℕ)) (r : ℚ) (pattern0 : List ℕ) :
    List ℕ :=
  match lastGaps? with
  | none => pattern0
  | some lastGaps =>
    let commonGaps := pattern0.filter (fun g => lastGaps.contains g)
    if commonGaps.length = 0 then
      let sharedGap := lastGaps.getD (jsIndex r lastGaps.length) 0
      if pattern0.contains sharedGap then pattern0 else pattern0 ++ [sharedGap]
    else pattern0

/-- Whether the fix-up consumed its `Math.random()` call (it does exactly
when `commonGaps.length === 0`, levelGenerator.js line 133). -/
def fixupUsesRandom (lastGaps? : Option (List ℕ)) (pattern0 : List ℕ) : Bool :=
  match lastGaps? with
  | none => false
  | some lastGaps => (pattern0.filter (fun g => lastGaps.contains g)).length = 0

/-- The tail of each loop iteration of `LevelGenerator.generate` once a
pattern and speed are selected (levelGenerator.js lines 127-158): the
passability fix-up, the strong-beat speed boost, the spawn-time
back-calculation and the push of the event.  `pattern0`/`speed0` are the
selected pattern and speed, `phase`/`spiral`/`rix` the already-updated
counters. -/
def emitEvent (s : GenS) (beatTime difficulty : ℚ) (energy : EnergySample)
    (rng : ℕ → ℚ) (pattern0 : List ℕ) (speed0 : ℚ) (phase spiral : ℕ) (rix : ℕ) :
    GenS :=
  -- lines 129-138: ensure consecutive patterns share at least one gap
  let pattern := fixupPattern s.lastGaps (rng rix) pattern0
  let rix2 := if fixupUsesRandom s.lastGaps pattern0 then rix + 1 else rix
  -- lines 141-144: speed variety on strong beats
  let speed := if (7/10 : ℚ) < energy.bass then speed0 * (12/10) else speed0
  -- lines 146-148: spawn-time back-calculation
  let travelTime := spawnRadius / speed
  { events := s.events ++
      [{ time := beatTime, spawnTime := beatTime - travelTime, gaps := pattern,
         speed := speed, thickness := 3/10 + difficulty * (3/10) }]
    lastEventTime := beatTime
    spiralDirection := spiral
    patternPhase := phase
    lastGaps := some pattern
    rix := rix2 }

/-- One iteration of the beat loop of `LevelGenerator.generate`
(levelGenerator.js lines 67-159). -/
def processBeat (A : AudioData) (rng : ℕ → ℚ) (s : GenS) (beatTime : ℚ) : GenS :=
  if beatTime < gracePeriod then s
  else
    let beatInterval := 60 / (A.bpm : ℚ)
    let minInterval := beatInterval * (1/2)
    if beatTime - s.lastEventTime < minInterval * (8/10) then s
    else
      let energy := getEnergyAt A beatTime
      let timeFactor := min (beatTime / A.duration) 1
      let difficulty := timeFactor
      if s.events.length < 5 then
        -- lines 83-86: first 5 events are always easy
        emitEvent s beatTime difficulty energy rng
          (PATTERNS.halfOpen s.patternPhase) (baseSpeed * (8/10))
          ((s.patternPhase + 1) % 6) s.spiralDirection s.rix
      else if (8/10 : ℚ) < energy.total ∧ (3/10 : ℚ) < difficulty then
        -- lines 87-98: high energy = harder patterns
        let roll := rng s.rix
        if roll < 3/10 then
          emitEvent s beatTime difficulty energy rng
            (PATTERNS.narrow s.spiralDirection) (baseSpeed * (1 + difficulty * (8/10)))
            s.patternPhase ((s.spiralDirection + 1) % 6) (s.rix + 1)
        else if roll < 6/10 then
          emitEvent s beatTime difficulty energy rng
            (PATTERNS.single (jsSide (rng (s.rix + 1))))
            (baseSpeed * (1 + difficulty * (8/10)))
            s.patternPhase s.spiralDirection (s.rix + 2)
        else
          emitEvent s beatTime difficulty energy rng
            (PATTERNS.opposite (jsSide (rng (s.rix + 1))))
            (baseSpeed * (1 + difficulty * (8/10)))
            s.patternPhase s.spiralDirection (s.rix + 2)
      else if (1/2 : ℚ) < energy.total then
        -- lines 99-110: medium energy
        let roll := rng s.rix
        if roll < 4/10 then
          emitEvent s beatTime difficulty energy rng
            (PATTERNS.opposite s.patternPhase) (baseSpeed * (1 + difficulty * (1/2)))
            ((s.patternPhase + 1) % 6) s.spiralDirection (s.rix + 1)
        else if roll < 7/10 then
          emitEvent s beatTime difficulty energy rng
            (PATTERNS.adjacent s.patternPhase) (baseSpeed * (1 + difficulty * (1/2)))
            ((s.patternPhase + 1) % 6) s.spiralDirection (s.rix + 1)
        else
          emitEvent s beatTime difficulty energy rng
            (PATTERNS.single s.patternPhase) (baseSpeed * (1 + difficulty * (1/2)))
            ((s.patternPhase + 1) % 6) s.spiralDirection (s.rix + 1)
      else if (2/10 : ℚ) < energy.total then
        -- lines 111-119: low energy = easier
        let roll := rng s.rix
        if roll < 1/2 then
          emitEvent s beatTime difficulty energy rng
            (PATTERNS.halfOpen (jsSide (rng (s.rix + 1))))
            (baseSpeed * (8/10 + difficulty * (3/10)))
            s.patternPhase s.spiralDirection (s.rix + 2)
        else
          emitEvent s beatTime difficulty energy rng
            (PATTERNS.wide (jsSide (rng (s.rix + 1))))
            (baseSpeed * (8/10 + difficulty * (3/10)))
            s.patternPhase s.spiralDirection (s.rix + 2)
      else
        -- lines 120-125: very low energy — skip or very easy
        if rng s.rix < 1/2 then { s with rix := s.rix + 1 }
        else
          emitEvent s beatTime difficulty energy rng
            (PATTERNS.alternating (jsSide (rng (s.rix + 1)))) (baseSpeed * (7/10))
            s.patternPhase s.spiralDirection (s.rix + 2)

/-- The event synthesized at the midpoint of a large gap
(`LevelGenerator._addSubBeatPatterns`, levelGenerator.js lines 180-192).
`event.gaps[0]` is modelled with `headD` (the gaps of an emitted event
are provably non-empty). -/
def mkSubEvent (e next : SpawnEvent) : SpawnEvent :=
  let gap := next.time - e.time
  let sharedGap := e.gaps.headD 0
  let speed := e.speed * (9/10)
  let travelTime := spawnRadius / speed
  { time := e.time + gap / 2
    spawnTime := e.time + gap / 2 - travelTime
    gaps := PATTERNS.opposite sharedGap
    speed := speed
    thickness := 3/10 }

/-- The pair scan of `_addSubBeatPatterns` (levelGenerator.js lines
171-195): one extra event per consecutive pair whose arrival gap exceeds
1.5 beats when the energy at the midpoint exceeds 0.6. -/
def subBeatsAux (A : AudioData) (beatInterval : ℚ) : List SpawnEvent → List SpawnEvent
  | e :: next :: rest =>
    (let gap := next.time - e.time
     if beatInterval * (3/2) < gap ∧
         (6/10 : ℚ) < (getEnergyAt A (e.time + gap / 2)).total then
       [mkSubEvent e next]
     else []) ++ subBeatsAux A beatInterval (next :: rest)
  | _ => []

/-- One insertion step of the model of
`events.sort((a, b) => a.spawnTime - b.spawnTime)`. -/
def insertBySpawn (e : SpawnEvent) : List SpawnEvent → List SpawnEvent
  | [] => [e]
  | x :: xs => if x.spawnTime ≤ e.spawnTime then x :: insertBySpawn e xs else e :: x :: xs

/-- `events.sort((a, b) => a.spawnTime - b.spawnTime)` (levelGenerator.js
lines 165 and 198), modelled as insertion sort: only the
sorted-permutation property of the JS sort is relied upon. -/
def sortBySpawnTime : List SpawnEvent → List SpawnEvent
  | [] => []
  | x :: xs => insertBySpawn x (sortBySpawnTime xs)

/-- The initial loop state of `LevelGenerator.generate`
(levelGenerator.js lines 47-64): `lastEventTime = -minInterval`. -/
def initGenS (A : AudioData) : GenS :=
  { events := []
    lastEventTime := -(60 / (A.bpm : ℚ) * (1/2))
    spiralDirection := 0
    patternPhase := 0
    lastGaps := none
    rix := 0 }

/-- The beat pass of `LevelGenerator.generate` (levelGenerator.js lines
67-159): fold of `processBeat` over `beatTimes`. -/
def beatPass (A : AudioData) (rng : ℕ → ℚ) : GenS :=
  A.beatTimes.foldl (processBeat A rng) (initGenS A)

/-- `LevelGenerator.generate` (levelGenerator.js lines 46-166): beat
pass, sub-beat densification (which itself sorts, line 198), final sort
by `spawnTime` (line 165). -/
def generateEvents (A : AudioData) (rng : ℕ → ℚ) : List SpawnEvent :=
  let evs := (beatPass A rng).events
  let beatInterval := 60 / (A.bpm : ℚ)
  sortBySpawnTime (sortBySpawnTime (evs ++ subBeatsAux A beatInterval evs))

/-! ## Playback scheduler (`LevelGenerator.getEventsForTime`,
levelGenerator.js lines 205-219) -/

/-- The body of the `while` loop of `getEventsForTime`, expressed on the
suffix of the event list starting at the cursor: take events while
`spawnTime <= audioTime`. -/
def spawnScan (audioTime : ℚ) : List SpawnEvent → List SpawnEvent
  | [] => []
  | e :: rest => if e.spawnTime ≤ audioTime then e :: spawnScan audioTime rest else []

/-- `LevelGenerator.getEventsForTime` (levelGenerator.js lines 205-219):
returns the batch of newly due events and the advanced cursor
`currentEventIndex`. -/
def getEventsForTime (events : List SpawnEvent) (currentEventIndex : ℕ)
    (audioTime : ℚ) : List SpawnEvent × ℕ :=
  let toSpawn := spawnScan audioTime (events.drop currentEventIndex)
  (toSpawn, currentEventIndex + toSpawn.length)

/-- A sequence of per-frame scheduler queries: each query feeds the
cursor left by the previous one, as the mutable `currentEventIndex`
does across frames (game.js line 176). -/
def runQueries (events : List SpawnEvent) (currentEventIndex : ℕ) :
    List ℚ → List (List SpawnEvent) × ℕ
  | [] => ([], currentEventIndex)
  | t :: ts =>
    let r := getEventsForTime events currentEventIndex t
    let rest := runQueries events r.2 ts
    (r.1 :: rest.1, rest.2)

/-! ## Game-state slice (`game.js`) -/

/-- The `GameState` string enumeration (game.js lines 16-21). -/
inductive GScreen
  | menu
  | analyzing
  | playing
  | gameOver
deriving DecidableEq, Repr

/-- The slice of the `Game` object state read or written by `_startGame`
and `_onContinue`, together with the embedded `LevelGenerator` cursor
(`currentEventIndex`, `difficultyRamp`) and `AudioManager` playback
fields (`pauseOffset`, `isPlaying`).  `deathAudioTime` models
`_deathAudioTime` (set at death, game.js line 295; the initial
`undefined` is modelled as 0, matching the `|| 0` at line 514). -/
structure GameS where
  state : GScreen
  isTransitioning : Bool
  gameTime : ℚ
  survivalTime : ℚ
  currentEventIndex : ℕ
  difficultyRamp : ℚ
  pauseOffset : ℚ
  isPlaying : Bool
  deathAudioTime : ℚ
  walls : List SpawnEvent
deriving DecidableEq, Repr

/-- `Game._startGame` (game.js lines 450-486), restricted to the modelled
fields: sets state to PLAYING, zeroes the clocks, clears the walls,
calls `levelGen.reset()` (cursor → 0, levelGenerator.js lines 221-224)
and `audio.restart()` (stop: `pauseOffset = 0`, then play from offset 0,
audio.js lines 293-297). -/
def startGame (g : GameS) : GameS :=
  { g with
    state := GScreen.playing
    gameTime := 0
    survivalTime := 0
    walls := []
    currentEventIndex := 0
    difficultyRamp := 0
    pauseOffset := 0
    isPlaying := true }

/-- `Game._onContinue` (game.js lines 493-521), restricted to the
modelled fields: guarded by `state === GAME_OVER && !isTransitioning`;
resumes playback from `_deathAudioTime` without touching the
`LevelGenerator` cursor. -/
def onContinue (g : GameS) : GameS :=
  if g.state ≠ GScreen.gameOver ∨ g.isTransitioning then g
  else
    { g with
      state := GScreen.playing
      survivalTime := 0
      walls := []
      pauseOffset := g.deathAudioTime
      isPlaying := true }

/-! ## Concrete inputs used by witnesses and counterexamples -/

/-- A degenerate random stream (every draw is 0); admissible since
`0 ∈ [0, 1)`. -/
def rng0 : ℕ → ℚ := fun _ => 0

/-- A one-sample energy map whose single sample (at 7 s) has strong bass
(`0.8 > 0.7`) and total energy `0.6 > 0.5`. -/
def emap1 : List EnergySample := [⟨7, 4/5, 0, 0, 3/5⟩]

/-- A small analysed track: 60 BPM, 8 s, energy map `emap1`, beat grid
built by `_detectBeats` from those (the one-beat grid `[7]`, since the
first sample with total energy above 0.5 sits at 7 s). -/
def track1 : AudioData :=
  { bpm := 60, duration := 8, beatTimes := detectBeats 60 emap1 8,
    energyMap := emap1 }

/-- A two-event schedule used to exercise the scheduler. -/
def sched2 : List SpawnEvent := [⟨1, 0, [0], 1, 3/10⟩, ⟨2, 1, [1], 1, 3/10⟩]

/-- 401 samples of digital silence at 8 kHz (one full 50 ms analysis
window). -/
def silent401 : List ℚ := List.replicate 401 0

/-- 401 full-scale samples at 8 kHz (one full 50 ms analysis window). -/
def ones401 : List ℚ := List.replicate 401 1

/-- A game state sitting on the game-over screen with the death position
at 3.5 s and the scheduler cursor at 17. -/
def gameOverS : GameS :=
  { state := GScreen.gameOver, isTransitioning := false, gameTime := 5,
    survivalTime := 2, currentEventIndex := 17, difficultyRamp := 0,
    pauseOffset := 0, isPlaying := false, deathAudioTime := 7/2,
    walls := [⟨1, 0, [0], 1, 3/10⟩] }

/-! ## Invariant definitions used by the proofs -/

/-- The possible pattern shapes selected by the beat loop. -/
def IsPatternShape (p0 : List ℕ) : Prop :=
  ∃ k, p0 = PATTERNS.single k ∨ p0 = PATTERNS.opposite k ∨
    p0 = PATTERNS.adjacent k ∨ p0 = PATTERNS.halfOpen k ∨
    p0 = PATTERNS.narrow k ∨ p0 = PATTERNS.wide k ∨ p0 = PATTERNS.alternating k

/-- C3 invariant, stated for the loop state. -/
def TravelTimeInv (s : GenS) : Prop :=
  ∀ e ∈ s.events, e.time - e.spawnTime = spawnRadius / e.speed

/-- Invariant of the beat loop for the first-five characterization:
while fewer than 5 events exist the rotation phase equals the event
count; every emitted event with index below 5 carries the `halfOpen`
pattern at its own index and the `0.8 × base` speed (boosted by 1.2 on
strong bass); `lastGaps` always mirrors the last emitted event. -/
def FirstFiveInv (A : AudioData) (s : GenS) : Prop :=
  (s.events.length < 5 → s.patternPhase = s.events.length) ∧
  (∀ i (h : i < s.events.length), i < 5 →
    (s.events.get ⟨i, h⟩).gaps = PATTERNS.halfOpen i ∧
    (s.events.get ⟨i, h⟩).speed =
      (if (7/10 : ℚ) < (getEnergyAt A (s.events.get ⟨i, h⟩).time).bass
        then baseSpeed * (8/10) * (12/10) else baseSpeed * (8/10))) ∧
  s.lastGaps = (s.events.getLast?).map (·.gaps)

/-- Every beat-pass event's speed is at least `0.7 × baseSpeed`. -/
def SpeedInv (s : GenS) : Prop :=
  ∀ e ∈ s.events, (7/10) * baseSpeed ≤ e.speed

/-- Well-formedness of a gaps list: non-empty, duplicate-free, at most 4
sides, all in `{0, …, 5}`. -/
def GapsGood (l : List ℕ) : Prop :=
  l ≠ [] ∧ l.Nodup ∧ l.length ≤ 4 ∧ ∀ g ∈ l, g < 6

/-- The gaps invariant of the beat loop: every emitted event and the
remembered `lastGaps` are well-formed. -/
def GapsInv (s : GenS) : Prop :=
  (∀ e ∈ s.events, GapsGood e.gaps) ∧
  (∀ lg, s.lastGaps = some lg → GapsGood lg)

/-- The arrival-time invariant of the beat loop: event times are grid
points, bounded by `lastEventTime`, and strictly increasing. -/
def TimeInv (first I : ℚ) (s : GenS) : Prop :=
  (∀ e ∈ s.events, ∃ k : ℕ, e.time = first + k * I) ∧
  (∀ e ∈ s.events, e.time ≤ s.lastEventTime) ∧
  s.events.Pairwise (fun a b => a.time < b.time)

/-! ## Helper lemmas: sorting permutations -/

theorem insertBySpawn_perm (e : SpawnEvent) (l : List SpawnEvent) :
    (insertBySpawn e l).Perm (e :: l) := by
  induction l with
  | nil => simp [insertBySpawn]
  | cons x xs ih =>
    simp only [insertBySpawn]
    split
    · exact ((ih.cons x).trans (List.Perm.swap e x xs))
    · exact List.Perm.refl _

theorem sortBySpawnTime_perm (l : List SpawnEvent) : (sortBySpawnTime l).Perm l := by
  induction l with
  | nil => simp [sortBySpawnTime]
  | cons x xs ih =>
    exact (insertBySpawn_perm x (sortBySpawnTime xs)).trans (ih.cons x)

theorem mem_sortBySpawnTime {e : SpawnEvent} {l : List SpawnEvent} :
    e ∈ sortBySpawnTime l ↔ e ∈ l :=
  (sortBySpawnTime_perm l).mem_iff

theorem insertRat_perm (x : ℚ) (l : List ℚ) : (insertRat x l).Perm (x :: l) := by
  induction l with
  | nil => simp [insertRat]
  | cons y ys ih =>
    simp only [insertRat]
    split
    · exact ((ih.cons y).trans (List.Perm.swap x y ys))
    · exact List.Perm.refl _

theorem sortRat_perm (l : List ℚ) : (sortRat l).Perm l := by
  induction l with
  | nil => simp [sortRat]
  | cons x xs ih => exact (insertRat_perm x (sortRat xs)).trans (ih.cons x)

/-! ## Helper lemmas: the emit step -/

/-- `emitEvent` unfolded to an explicit record equation. -/
theorem emitEvent_def (s : GenS) (bt d : ℚ) (en : EnergySample) (rng : ℕ → ℚ)
    (p0 : List ℕ) (sp : ℚ) (ph spi rix : ℕ) :
    emitEvent s bt d en rng p0 sp ph spi rix =
      { events := s.events ++
          [{ time := bt,
             spawnTime := bt - spawnRadius /
               (if (7/10 : ℚ) < en.bass then sp * (12/10) else sp),
             gaps := fixupPattern s.lastGaps (rng rix) p0,
             speed := if (7/10 : ℚ) < en.bass then sp * (12/10) else sp,
             thickness := 3/10 + d * (3/10) }]
        lastEventTime := bt
        spiralDirection := spi
        patternPhase := ph
        lastGaps := some (fixupPattern s.lastGaps (rng rix) p0)
        rix := if fixupUsesRandom s.lastGaps p0 then rix + 1 else rix } := rfl

theorem fixupPattern_cases (lg? : Option (List ℕ)) (r : ℚ) (p0 : List ℕ) :
    fixupPattern lg? r p0 = p0 ∨
    ∃ lg, lg? = some lg ∧ (∀ x ∈ p0, x ∉ lg) ∧
      fixupPattern lg? r p0 = p0 ++ [lg.getD (jsIndex r lg.length) 0] ∧
      lg.getD (jsIndex r lg.length) 0 ∉ p0 := by
  match lg? with
  | none => exact Or.inl rfl
  | some lg =>
    simp only [fixupPattern]
    by_cases hc : (p0.filter (fun g => lg.contains g)).length = 0
    · have hnone : ∀ x ∈ p0, x ∉ lg := by
        intro x hx hxlg
        have hmem : x ∈ p0.filter (fun g => lg.contains g) := by
          simp [List.mem_filter, hx, hxlg]
        rw [List.length_eq_zero] at hc
        rw [hc] at hmem
        simp at hmem
      rw [if_pos hc]
      by_cases hmem : p0.contains (lg.getD (jsIndex r lg.length) 0) = true
      · rw [if_pos hmem]
        exact Or.inl rfl
      · rw [if_neg hmem]
        exact Or.inr ⟨lg, rfl, hnone, rfl, by simpa using hmem⟩
    · rw [if_neg hc]
      exact Or.inl rfl

theorem fixupPattern_of_shared {lg p0 : List ℕ} {g : ℕ} (r : ℚ)
    (hg : g ∈ p0) (hg' : g ∈ lg) : fixupPattern (some lg) r p0 = p0 := by
  have hmem : g ∈ p0.filter (fun x => lg.contains x) := by
    simp [List.mem_filter, hg, hg']
  have hne : ¬ (p0.filter (fun x => lg.contains x)).length = 0 := by
    intro h0
    rw [List.length_eq_zero] at h0
    rw [h0] at hmem
    simp at hmem
  simp only [fixupPattern]
  rw [if_neg hne]

theorem getD_jsIndex_mem (lg : List ℕ) (r : ℚ) (hne : lg ≠ [])
    (h0 : 0 ≤ r) (h1 : r < 1) :
    lg.getD (jsIndex r lg.length) 0 ∈ lg := by
  have hlen : 0 < lg.length := List.length_pos.mpr hne
  have hlenq : (0 : ℚ) < (lg.length : ℚ) := by exact_mod_cast hlen
  have hidx : jsIndex r lg.length < lg.length := by
    have hfl : Int.floor (r * (lg.length : ℚ)) < (lg.length : ℤ) := by
      rw [Int.floor_lt]
      push_cast
      nlinarith [mul_pos (by linarith : (0:ℚ) < 1 - r) hlenq]
    unfold jsIndex
    omega
  rw [List.getD_eq_getElem lg 0 hidx]
  exact List.getElem_mem hidx

/-- Case analysis of one beat-loop iteration: either the beat is skipped
(state unchanged, possibly one random draw consumed), or an event is
emitted through `emitEvent`, with the recorded guard conditions and the
possible pattern/speed selections of levelGenerator.js lines 79-125. -/
theorem processBeat_shape (A : AudioData) (rng : ℕ → ℚ) (s : GenS) (b : ℚ) :
    processBeat A rng s b = s ∨
    processBeat A rng s b = { s with rix := s.rix + 1 } ∨
    ∃ p0 sp ph spi rix,
      processBeat A rng s b =
        emitEvent s b (min (b / A.duration) 1) (getEnergyAt A b) rng p0 sp ph spi rix ∧
      gracePeriod ≤ b ∧
      60 / (A.bpm : ℚ) * (1/2) * (8/10) ≤ b - s.lastEventTime ∧
      ((s.events.length < 5 ∧
          p0 = PATTERNS.halfOpen s.patternPhase ∧
          sp = baseSpeed * (8/10) ∧
          ph = (s.patternPhase + 1) % 6) ∨
        (5 ≤ s.events.length ∧ IsPatternShape p0 ∧
          (sp = baseSpeed * (1 + min (b / A.duration) 1 * (8/10)) ∨
           sp = baseSpeed * (1 + min (b / A.duration) 1 * (1/2)) ∨
           sp = baseSpeed * (8/10 + min (b / A.duration) 1 * (3/10)) ∨
           sp = baseSpeed * (7/10)))) := by
  simp only [processBeat]
  by_cases hg : b < gracePeriod
  · rw [if_pos hg]
    exact Or.inl rfl
  rw [if_neg hg]
  have hg' : gracePeriod ≤ b := le_of_not_lt hg
  by_cases hmin : b - s.lastEventTime < 60 / (A.bpm : ℚ) * (1/2) * (8/10)
  · rw [if_pos hmin]
    exact Or.inl rfl
  rw [if_neg hmin]
  have hmin' : 60 / (A.bpm : ℚ) * (1/2) * (8/10) ≤ b - s.lastEventTime :=
    le_of_not_lt hmin
  by_cases h5 : s.events.length < 5
  · rw [if_pos h5]
    exact Or.inr (Or.inr ⟨_, _, _, _, _, rfl, hg', hmin',
      Or.inl ⟨h5, rfl, rfl, rfl⟩⟩)
  rw [if_neg h5]
  have h5' : 5 ≤ s.events.length := le_of_not_lt h5
  by_cases hhard : (8/10 : ℚ) < (getEnergyAt A b).total ∧ (3/10 : ℚ) < min (b / A.duration) 1
  · rw [if_pos hhard]
    by_cases hr1 : rng s.rix < 3/10
    · rw [if_pos hr1]
      exact Or.inr (Or.inr ⟨_, _, _, _, _, rfl, hg', hmin',
        Or.inr ⟨h5', ⟨s.spiralDirection, by tauto⟩, by tauto⟩⟩)
    rw [if_neg hr1]
    by_cases hr2 : rng s.rix < 6/10
    · rw [if_pos hr2]
      exact Or.inr (Or.inr ⟨_, _, _, _, _, rfl, hg', hmin',
        Or.inr ⟨h5', ⟨jsSide (rng (s.rix + 1)), by tauto⟩, by tauto⟩⟩)
    · rw [if_neg hr2]
      exact Or.inr (Or.inr ⟨_, _, _, _, _, rfl, hg', hmin',
        Or.inr ⟨h5', ⟨jsSide (rng (s.rix + 1)), by tauto⟩, by tauto⟩⟩)
  rw [if_neg hhard]
  by_cases hmed : (1/2 : ℚ) < (getEnergyAt A b).total
  · rw [if_pos hmed]
    by_cases hr1 : rng s.rix < 4/10
    · rw [if_pos hr1]
      exact Or.inr (Or.inr ⟨_, _, _, _, _, rfl, hg', hmin',
        Or.inr ⟨h5', ⟨s.patternPhase, by tauto⟩, by tauto⟩⟩)
    rw [if_neg hr1]
    by_cases hr2 : rng s.rix < 7/10
    · rw [if_pos hr2]
      exact Or.inr (Or.inr ⟨_, _, _, _, _, rfl, hg', hmin',
        Or.inr ⟨h5', ⟨s.patternPhase, by tauto⟩, by tauto⟩⟩)
    · rw [if_neg hr2]
      exact Or.inr (Or.inr ⟨_, _, _, _, _, rfl, hg', hmin',
        Or.inr ⟨h5', ⟨s.patternPhase, by tauto⟩, by tauto⟩⟩)
  rw [if_neg hmed]
  by_cases hlow : (2/10 : ℚ) < (getEnergyAt A b).total
  · rw [if_pos hlow]
    by_cases hr1 : rng s.rix < 1/2
    · rw [if_pos hr1]
      exact Or.inr (Or.inr ⟨_, _, _, _, _, rfl, hg', hmin',
        Or.inr ⟨h5', ⟨jsSide (rng (s.rix + 1)), by tauto⟩, by tauto⟩⟩)
    · rw [if_neg hr1]
      exact Or.inr (Or.inr ⟨_, _, _, _, _, rfl, hg', hmin',
        Or.inr ⟨h5', ⟨jsSide (rng (s.rix + 1)), by tauto⟩, by tauto⟩⟩)
  rw [if_neg hlow]
  by_cases hskip : rng s.rix < 1/2
  · rw [if_pos hskip]
    exact Or.inr (Or.inl rfl)
  · rw [if_neg hskip]
    exact Or.inr (Or.inr ⟨_, _, _, _, _, rfl, hg', hmin',
      Or.inr ⟨h5', ⟨jsSide (rng (s.rix + 1)), by tauto⟩, by tauto⟩⟩)

theorem emitEvent_mem_events {s : GenS} {bt d : ℚ} {en : EnergySample}
    {rng : ℕ → ℚ} {p0 : List ℕ} {sp : ℚ} {ph spi rix : ℕ} {e : SpawnEvent}
    (he : e ∈ (emitEvent s bt d en rng p0 sp ph spi rix).events) :
    e ∈ s.events ∨
      e = { time := bt,
            spawnTime := bt - spawnRadius /
              (if (7/10 : ℚ) < en.bass then sp * (12/10) else sp),
            gaps := fixupPattern s.lastGaps (rng rix) p0,
            speed := if (7/10 : ℚ) < en.bass then sp * (12/10) else sp,
            thickness := 3/10 + d * (3/10) } := by
  rw [emitEvent_def] at he
  simpa using List.mem_append.mp he

theorem mem_subBeatsAux {A : AudioData} {bI : ℚ} :
    ∀ {l : List SpawnEvent} {x : SpawnEvent}, x ∈ subBeatsAux A bI l →
      ∃ e next, e ∈ l ∧ next ∈ l ∧ bI * (3/2) < next.time - e.time ∧
        x = mkSubEvent e next := by
  intro l
  induction l with
  | nil => intro x hx; simp [subBeatsAux] at hx
  | cons e rest ih =>
    match rest with
    | [] => intro x hx; simp [subBeatsAux] at hx
    | next :: rest' =>
      intro x hx
      simp only [subBeatsAux, List.mem_append] at hx
      rcases hx with hx | hx
      · split at hx
        · rename_i hcond
          simp only [List.mem_singleton] at hx
          exact ⟨e, next, List.mem_cons_self _ _,
            List.mem_cons_of_mem _ (List.mem_cons_self _ _), hcond.1, hx⟩
        · simp at hx
      · obtain ⟨a, b', ha, hb, hgap, hx⟩ := ih hx
        exact ⟨a, b', List.mem_cons_of_mem _ ha, List.mem_cons_of_mem _ hb, hgap, hx⟩

theorem processBeat_travel {A : AudioData} {rng : ℕ → ℚ} {s : GenS} {b : ℚ}
    (hs : TravelTimeInv s) : TravelTimeInv (processBeat A rng s b) := by
  rcases processBeat_shape A rng s b with h | h | ⟨p0, sp, ph, spi, rix, heq, _⟩
  · rw [h]; exact hs
  · intro e he; rw [h] at he; exact hs e he
  · intro e he
    rw [heq] at he
    rcases emitEvent_mem_events he with h' | h'
    · exact hs e h'
    · subst h'
      show b - (b - spawnRadius / _) = _
      ring_nf

theorem beatPass_travel (A : AudioData) (rng : ℕ → ℚ) :
    TravelTimeInv (beatPass A rng) := by
  unfold beatPass
  refine List.foldlRecOn A.beatTimes (processBeat A rng) (initGenS A) ?_ ?_
  · intro e he
    simp [initGenS] at he
  · intro s hs b _
    exact processBeat_travel hs

/-- **C3.** Every SpawnEvent produced by the generator — beat-pass events
and sub-beat densification events alike — satisfies
`time - spawnTime = spawnRadius / speed` exactly (the relation is exact
over `ℚ`; the floating tolerance of the claim is not needed). -/
theorem generate_spawn_travel_relation (A : AudioData) (rng : ℕ → ℚ) :
    ∀ e ∈ generateEvents A rng, e.time - e.spawnTime = spawnRadius / e.speed := by
  intro e he
  unfold generateEvents at he
  rw [mem_sortBySpawnTime, mem_sortBySpawnTime, List.mem_append] at he
  rcases he with he | he
  · exact beatPass_travel A rng e he
  · obtain ⟨a, b', _, _, _, hx⟩ := mem_subBeatsAux he
    subst hx
    simp [mkSubEvent]

theorem beatGridAux_step {dur interval t : ℚ} (h : t < dur ∧ 0 < interval) :
    beatGridAux dur interval t = t :: beatGridAux dur interval (t + interval) := by
  rw [beatGridAux, dif_pos h]

theorem beatGridAux_stop {dur interval t : ℚ} (h : ¬(t < dur ∧ 0 < interval)) :
    beatGridAux dur interval t = [] := by
  rw [beatGridAux, dif_neg h]

/-- Evaluation of the beat grid of `track1`. -/
theorem track1_beatTimes_eq : track1.beatTimes = [7] := by
  have hfind : emap1.find? (fun e => decide ((1/2 : ℚ) < e.total)) =
      some ⟨7, 4/5, 0, 0, 3/5⟩ := by
    rw [emap1, List.find?_cons_of_pos]
    exact decide_eq_true (by norm_num)
  show detectBeats 60 emap1 8 = _
  rw [detectBeats]
  simp only [hfind, Option.map_some', Option.getD_some]
  norm_num
  rw [beatGridAux_step (by norm_num), beatGridAux_stop (by norm_num)]

theorem track1_struct : track1 = ⟨60, 8, [7], emap1⟩ := by
  rw [show track1 = ⟨60, 8, track1.beatTimes, emap1⟩ from rfl, track1_beatTimes_eq]

/-- Evaluation of the beat pass on `track1` with the zero random stream:
a single first-5 event whose speed carries the bass boost. -/
theorem track1_beatPass_eq :
    (beatPass track1 rng0).events = [⟨7, 127/36, [0, 1, 2], 144/25, 9/16⟩] := by
  rw [show beatPass track1 rng0 = beatPass ⟨60, 8, [7], emap1⟩ rng0 from by
    rw [track1_struct]]
  norm_num [beatPass, processBeat, initGenS, emitEvent, emap1, gracePeriod,
    baseSpeed, spawnRadius, getEnergyAt, fixupPattern, fixupUsesRandom,
    PATTERNS.halfOpen, rng0]

/-- Evaluation of the generator on `track1` with the zero random stream. -/
theorem track1_events_eq :
    generateEvents track1 rng0 = [⟨7, 127/36, [0, 1, 2], 144/25, 9/16⟩] := by
  show sortBySpawnTime (sortBySpawnTime ((beatPass track1 rng0).events ++
      subBeatsAux track1 (60 / (track1.bpm : ℚ)) (beatPass track1 rng0).events)) = _
  rw [track1_beatPass_eq]
  norm_num [subBeatsAux, sortBySpawnTime, insertBySpawn]

/-- Witness for C3 at a concrete track: the single event of `track1`. -/
theorem generate_spawn_travel_relation_witness :
    (⟨7, 127/36, [0, 1, 2], 144/25, 9/16⟩ : SpawnEvent).time -
        (⟨7, 127/36, [0, 1, 2], 144/25, 9/16⟩ : SpawnEvent).spawnTime =
      spawnRadius / (⟨7, 127/36, [0, 1, 2], 144/25, 9/16⟩ : SpawnEvent).speed :=
  generate_spawn_travel_relation track1 rng0
    ⟨7, 127/36, [0, 1, 2], 144/25, 9/16⟩
    (by rw [track1_events_eq]; exact List.mem_singleton.mpr rfl)

/-! ## Scheduler lemmas -/

theorem spawnScan_append_drop (t : ℚ) (l : List SpawnEvent) :
    spawnScan t l ++ l.drop (spawnScan t l).length = l := by
  induction l with
  | nil => simp [spawnScan]
  | cons e rest ih =>
    simp only [spawnScan]
    split
    · simpa using ih
    · simp

theorem spawnScan_length_le (t : ℚ) (l : List SpawnEvent) :
    (spawnScan t l).length ≤ l.length := by
  induction l with
  | nil => simp [spawnScan]
  | cons e rest ih =>
    simp only [spawnScan]
    split
    · simpa using ih
    · simp

theorem spawnScan_all (t : ℚ) (l : List SpawnEvent)
    (h : ∀ e ∈ l, e.spawnTime ≤ t) : spawnScan t l = l := by
  induction l with
  | nil => rfl
  | cons e rest ih =>
    rw [spawnScan, if_pos (h e (List.mem_cons_self e rest))]
    rw [ih (fun x hx => h x (List.mem_cons_of_mem e hx))]

theorem runQueries_flatten_drop (evs : List SpawnEvent) (ts : List ℚ) :
    ∀ idx, (runQueries evs idx ts).1.flatten ++ evs.drop (runQueries evs idx ts).2 =
      evs.drop idx := by
  induction ts with
  | nil => intro idx; simp [runQueries]
  | cons t ts ih =>
    intro idx
    simp only [runQueries, getEventsForTime, List.flatten_cons, List.append_assoc]
    rw [ih, ← List.drop_drop, spawnScan_append_drop]

theorem runQueries_final_eq_length {evs : List SpawnEvent} {tN : ℚ}
    (hb : ∀ e ∈ evs, e.spawnTime ≤ tN) :
    ∀ (ts : List ℚ), ts.getLast? = some tN →
      ∀ idx, idx ≤ evs.length → (runQueries evs idx ts).2 = evs.length
  | [] => by simp
  | [t] => by
    intro hl idx hidx
    simp only [List.getLast?_singleton, Option.some.injEq] at hl
    subst hl
    simp only [runQueries, getEventsForTime]
    rw [spawnScan_all t (evs.drop idx)
      (fun e he => hb e (List.mem_of_mem_drop he))]
    simp only [List.length_drop]
    omega
  | t :: t2 :: rest => by
    intro hl idx hidx
    rw [List.getLast?_cons_cons] at hl
    simp only [runQueries]
    apply runQueries_final_eq_length hb (t2 :: rest) hl
    have h2 : (spawnScan t (evs.drop idx)).length ≤ evs.length - idx := by
      have := spawnScan_length_le t (evs.drop idx)
      simpa [List.length_drop] using this
    simp only [getEventsForTime]
    omega

/-- **C2.** Starting from cursor index 0, for any sequence of
`getEventsForTime` queries with non-decreasing times whose last time is
at least the largest `spawnTime`, the concatenation of the returned
batches equals the full event sequence in order — each event exactly
once, no duplicates, no omissions. -/
theorem scheduler_exactly_once (evs : List SpawnEvent) (ts : List ℚ) (tN : ℚ)
    (hlast : ts.getLast? = some tN)
    (hmono : ts.Chain' (· ≤ ·))
    (hbound : ∀ e ∈ evs, e.spawnTime ≤ tN) :
    (runQueries evs 0 ts).1.flatten = evs := by
  have h1 := runQueries_flatten_drop evs ts 0
  have h2 := runQueries_final_eq_length hbound ts hlast 0 (Nat.zero_le _)
  rw [h2] at h1
  simpa using h1

/-- Witness for C2: the two-event schedule `sched2` under queries
`0, 1/2, 5`. -/
theorem scheduler_exactly_once_witness :
    (runQueries sched2 0 [0, 1/2, 5]).1.flatten = sched2 :=
  scheduler_exactly_once sched2 [0, 1/2, 5] 5 rfl
    (by constructor <;> norm_num)
    (by intro e he; fin_cases he <;> norm_num)

/-- **C8.** On a continue-from-death resume the scheduler cursor
(`currentEventIndex`) is left unchanged — the remaining not-yet-due
events stay available — and playback resumes from the saved death time,
whereas a restart resets the cursor to 0 and playback to time zero. -/
theorem continue_keeps_cursor_restart_resets (g : GameS)
    (hstate : g.state = GScreen.gameOver)
    (htrans : g.isTransitioning = false) :
    (onContinue g).currentEventIndex = g.currentEventIndex ∧
    (onContinue g).pauseOffset = g.deathAudioTime ∧
    (onContinue g).state = GScreen.playing ∧
    (startGame g).currentEventIndex = 0 ∧
    (startGame g).pauseOffset = 0 := by
  have hguard : ¬(g.state ≠ GScreen.gameOver ∨ g.isTransitioning = true) := by
    simp [hstate, htrans]
  rw [onContinue]
  simp only [hguard, if_neg, if_false]
  constructor
  · simp [hguard]
  · simp [hguard, startGame]

/-- Witness for C8 at the concrete state `gameOverS`. -/
theorem continue_keeps_cursor_restart_resets_witness :
    (onContinue gameOverS).currentEventIndex = gameOverS.currentEventIndex ∧
    (onContinue gameOverS).pauseOffset = gameOverS.deathAudioTime ∧
    (onContinue gameOverS).state = GScreen.playing ∧
    (startGame gameOverS).currentEventIndex = 0 ∧
    (startGame gameOverS).pauseOffset = 0 :=
  continue_keeps_cursor_restart_resets gameOverS rfl rfl

/-! ## Beat grid characterization (C5) -/

theorem beatGridAux_get? {dur interval : ℚ} (hI : 0 < interval) :
    ∀ (i : ℕ) (t : ℚ),
      (beatGridAux dur interval t).get? i =
        if t + i * interval < dur then some (t + i * interval) else none := by
  intro i
  induction i with
  | zero =>
    intro t
    by_cases h : t < dur
    · rw [beatGridAux_step ⟨h, hI⟩]
      simp [h]
    · rw [beatGridAux_stop (by tauto)]
      simp [h]
  | succ i ih =>
    intro t
    by_cases h : t < dur
    · rw [beatGridAux_step ⟨h, hI⟩]
      simp only [List.get?_cons_succ, ih (t + interval)]
      have harith : t + interval + (i : ℚ) * interval = t + ((i : ℕ) + 1 : ℕ) * interval := by
        push_cast
        ring
      rw [harith]
    · rw [beatGridAux_stop (by tauto)]
      have hge : ¬ t + ((i : ℚ) + 1) * interval < dur := by
        have h0 : (0 : ℚ) ≤ ((i : ℚ) + 1) * interval :=
          mul_nonneg (by positivity) (le_of_lt hI)
        intro hcon
        apply h
        linarith
      push_cast
      simp [hge]

/-- **C5.** The beat grid is exactly the sequence
`firstBeatTime + k * (60/bpm)` for `k = 0, 1, 2, …` of all values
strictly below the track duration, where `firstBeatTime` is the time of
the first energy sample with total energy above 0.5 (0 when none);
consequently the timestamps are strictly increasing and evenly spaced by
`60/bpm`. -/
theorem beat_grid_characterization (bpm : ℕ) (energyMap : List EnergySample)
    (duration : ℚ) (hbpm : 0 < bpm) :
    (∀ i : ℕ, (detectBeats bpm energyMap duration).get? i =
        if ((energyMap.find? (fun e => decide ((1/2 : ℚ) < e.total))).map
              (·.time)).getD 0 + i * (60 / (bpm : ℚ)) < duration
        then some (((energyMap.find? (fun e => decide ((1/2 : ℚ) < e.total))).map
              (·.time)).getD 0 + i * (60 / (bpm : ℚ)))
        else none) ∧
    (detectBeats bpm energyMap duration).Chain'
      (fun a b => b = a + 60 / (bpm : ℚ)) ∧
    (detectBeats bpm energyMap duration).Chain' (· < ·) := by
  have hI : (0 : ℚ) < 60 / (bpm : ℚ) := by
    apply div_pos (by norm_num)
    exact_mod_cast hbpm
  have hchar : ∀ i : ℕ, (detectBeats bpm energyMap duration).get? i =
      if ((energyMap.find? (fun e => decide ((1/2 : ℚ) < e.total))).map
            (·.time)).getD 0 + i * (60 / (bpm : ℚ)) < duration
      then some (((energyMap.find? (fun e => decide ((1/2 : ℚ) < e.total))).map
            (·.time)).getD 0 + i * (60 / (bpm : ℚ)))
      else none := by
    intro i
    exact beatGridAux_get? hI i _
  refine ⟨hchar, ?_, ?_⟩
  · rw [List.chain'_iff_get]
    intro i hi
    have h1 := hchar i
    have h2 := hchar (i + 1)
    rw [List.get?_eq_get (by omega : i < (detectBeats bpm energyMap duration).length)] at h1
    rw [List.get?_eq_get (by omega : i + 1 < (detectBeats bpm energyMap duration).length)] at h2
    split at h1
    · split at h2
      · simp only [Option.some.injEq] at h1 h2
        rw [h1, h2]
        push_cast
        ring
      · exact absurd h2 (by simp)
    · exact absurd h1 (by simp)
  · rw [List.chain'_iff_get]
    intro i hi
    have h1 := hchar i
    have h2 := hchar (i + 1)
    rw [List.get?_eq_get (by omega : i < (detectBeats bpm energyMap duration).length)] at h1
    rw [List.get?_eq_get (by omega : i + 1 < (detectBeats bpm energyMap duration).length)] at h2
    split at h1
    · split at h2
      · simp only [Option.some.injEq] at h1 h2
        rw [h1, h2]
        have : (0 : ℚ) ≤ (i : ℚ) := by positivity
        push_cast
        nlinarith [hI]
      · exact absurd h2 (by simp)
    · exact absurd h1 (by simp)

/-- Witness for C5: 120 BPM, empty energy map, 2 s duration (the grid
`[0, 1/2, 1, 3/2]`). -/
theorem beat_grid_characterization_witness :
    (∀ i : ℕ, (detectBeats 120 [] 2).get? i =
        if (((([] : List EnergySample).find?
              (fun e => decide ((1/2 : ℚ) < e.total))).map (·.time)).getD 0 +
              i * (60 / ((120 : ℕ) : ℚ)) < 2)
        then some (((([] : List EnergySample).find?
              (fun e => decide ((1/2 : ℚ) < e.total))).map (·.time)).getD 0 +
              i * (60 / ((120 : ℕ) : ℚ)))
        else none) ∧
    (detectBeats 120 [] 2).Chain' (fun a b => b = a + 60 / ((120 : ℕ) : ℚ)) ∧
    (detectBeats 120 [] 2).Chain' (· < ·) :=
  beat_grid_characterization 120 [] 2 (by norm_num)

/-! ## Tempo detector bounds (C6) -/

theorem halveDown_le_180 : ∀ b : ℚ, halveDown b ≤ 180 := by
  intro b
  induction b using halveDown.induct with
  | case1 b h ih => rw [halveDown, dif_pos h]; exact ih
  | case2 b h => rw [halveDown, dif_neg h]; linarith [not_lt.mp h]

theorem halveDown_ge_80 : ∀ b : ℚ, 80 ≤ b → 80 ≤ halveDown b := by
  intro b
  induction b using halveDown.induct with
  | case1 b h ih =>
    intro _
    rw [halveDown, dif_pos h]
    exact ih (by linarith)
  | case2 b h =>
    intro hb
    rw [halveDown, dif_neg h]
    exact hb

theorem doubleUp_ge_80 : ∀ b : ℚ, 0 < b → 80 ≤ doubleUp b := by
  intro b
  induction b using doubleUp.induct with
  | case1 b h ih =>
    intro _
    rw [doubleUp, dif_pos h]
    exact ih (by linarith [h.2])
  | case2 b h =>
    intro hb
    rw [doubleUp, dif_neg h]
    rcases not_and_or.mp h with h' | h'
    · linarith [not_lt.mp h']
    · exact absurd hb h'

theorem bpmIntervals_mem_bounds {w rate : ℕ} {peaks : List ℕ} {x : ℚ}
    (hx : x ∈ bpmIntervals w rate peaks) : 1/4 < x ∧ x < 2 := by
  unfold bpmIntervals at hx
  have := List.of_mem_filter hx
  exact of_decide_eq_true this

/-- The median interval taken by `_detectBPM` (audio.js line 205) is one
of the valid intervals. -/
theorem median_mem {w rate : ℕ} {peaks : List ℕ}
    (hne : bpmIntervals w rate peaks ≠ []) :
    (sortRat (bpmIntervals w rate peaks)).getD
        ((bpmIntervals w rate peaks).length / 2) 0 ∈ bpmIntervals w rate peaks := by
  have hperm := sortRat_perm (bpmIntervals w rate peaks)
  have hlen : (sortRat (bpmIntervals w rate peaks)).length
      = (bpmIntervals w rate peaks).length := hperm.length_eq
  have hpos : 0 < (bpmIntervals w rate peaks).length :=
    List.length_pos.mpr hne
  have hidx : (bpmIntervals w rate peaks).length / 2
      < (sortRat (bpmIntervals w rate peaks)).length := by
    rw [hlen]
    omega
  rw [List.getD_eq_getElem _ 0 hidx]
  exact hperm.mem_iff.mp (List.getElem_mem hidx)

/-- **C6.** The detected BPM is always an integer in `[80, 180]`: it is
the default 120 when fewer than 2 peaks are found or no inter-peak
interval lies in `(0.25 s, 2.0 s)`, and otherwise `60 / median`
octave-normalized into range by repeated doubling/halving, then
rounded. -/
theorem detectBPM_integer_range (rate : ℕ) (data : List ℚ) :
    (80 ≤ detectBPM rate data ∧ detectBPM rate data ≤ 180) ∧
    ((bpmPeaks (bpmEnergies (rate / 100) data)).length < 2 →
      detectBPM rate data = 120) ∧
    (bpmIntervals (rate / 100) rate (bpmPeaks (bpmEnergies (rate / 100) data)) = [] →
      detectBPM rate data = 120) ∧
    (2 ≤ (bpmPeaks (bpmEnergies (rate / 100) data)).length →
      ∀ hne : bpmIntervals (rate / 100) rate
          (bpmPeaks (bpmEnergies (rate / 100) data)) ≠ [],
      detectBPM rate data =
        round (halveDown (doubleUp (60 /
          (sortRat (bpmIntervals (rate / 100) rate
              (bpmPeaks (bpmEnergies (rate / 100) data)))).getD
            ((bpmIntervals (rate / 100) rate
                (bpmPeaks (bpmEnergies (rate / 100) data))).length / 2) 0)))) := by
  set w := rate / 100 with hw
  set peaks := bpmPeaks (bpmEnergies w data) with hpk
  set intervals := bpmIntervals w rate peaks with hiv
  have hunfold : detectBPM rate data =
      if peaks.length < 2 then 120
      else if _hne : intervals = [] then 120
      else round (halveDown (doubleUp (60 /
        (sortRat intervals).getD (intervals.length / 2) 0))) := rfl
  refine ⟨?_, ?_, ?_, ?_⟩
  · rw [hunfold]
    by_cases h2 : peaks.length < 2
    · rw [if_pos h2]
      norm_num
    rw [if_neg h2]
    by_cases hne : intervals = []
    · rw [dif_pos hne]
      norm_num
    rw [dif_neg hne]
    have hmed := @median_mem w rate peaks hne
    have hbounds := bpmIntervals_mem_bounds hmed
    set m := (sortRat intervals).getD (intervals.length / 2) 0 with hm
    have hb0 : (0 : ℚ) < 60 / m := by
      apply div_pos (by norm_num)
      linarith [hbounds.1]
    have h80 : (80 : ℚ) ≤ halveDown (doubleUp (60 / m)) :=
      halveDown_ge_80 _ (doubleUp_ge_80 _ hb0)
    have h180 : halveDown (doubleUp (60 / m)) ≤ 180 := halveDown_le_180 _
    constructor
    · rw [round_eq, Int.le_floor]
      push_cast
      linarith
    · rw [round_eq]
      have hfl : Int.floor (halveDown (doubleUp (60 / m)) + 1/2) < 181 := by
        rw [Int.floor_lt]
        push_cast
        linarith
      omega
  · intro h2
    rw [hunfold, if_pos h2]
  · intro hne
    rw [hunfold]
    by_cases h2 : peaks.length < 2
    · rw [if_pos h2]
    · rw [if_neg h2, dif_pos hne]
  · intro h2 hne
    rw [hunfold, if_neg (not_lt.mpr h2), dif_neg hne]

/-- Witness for C6: empty data at 100 Hz produces no peaks, hence the
default 120, which lies in range. -/
theorem detectBPM_integer_range_witness :
    ((80 ≤ detectBPM 100 [] ∧ detectBPM 100 [] ≤ 180) ∧
    ((bpmPeaks (bpmEnergies (100 / 100) [])).length < 2 →
      detectBPM 100 [] = 120) ∧
    (bpmIntervals (100 / 100) 100 (bpmPeaks (bpmEnergies (100 / 100) [])) = [] →
      detectBPM 100 [] = 120) ∧
    (2 ≤ (bpmPeaks (bpmEnergies (100 / 100) [])).length →
      ∀ hne : bpmIntervals (100 / 100) 100
          (bpmPeaks (bpmEnergies (100 / 100) [])) ≠ [],
      detectBPM 100 [] =
        round (halveDown (doubleUp (60 /
          (sortRat (bpmIntervals (100 / 100) 100
              (bpmPeaks (bpmEnergies (100 / 100) [])))).getD
            ((bpmIntervals (100 / 100) 100
                (bpmPeaks (bpmEnergies (100 / 100) []))).length / 2) 0))))) :=
  detectBPM_integer_range 100 []

/-! ## Energy normalization (C4) -/

theorem le_foldr_max {l : List ℚ} {x : ℚ} (hx : x ∈ l) (init : ℚ) :
    x ≤ l.foldr max init := by
  induction l with
  | nil => cases hx
  | cons a as ih =>
    rcases List.mem_cons.mp hx with rfl | h
    · exact le_max_left _ _
    · exact le_trans (ih h) (le_max_right _ _)

theorem init_le_foldr_max (l : List ℚ) (init : ℚ) : init ≤ l.foldr max init := by
  induction l with
  | nil => exact le_refl _
  | cons a as ih => exact le_trans ih (le_max_right _ _)

theorem foldr_max_mem (l : List ℚ) (init : ℚ) :
    l.foldr max init = init ∨ l.foldr max init ∈ l := by
  induction l with
  | nil => exact Or.inl rfl
  | cons a as ih =>
    simp only [List.foldr_cons]
    rcases max_choice a (as.foldr max init) with heq | heq
    · right
      rw [heq]
      exact List.mem_cons_self _ _
    · rcases ih with h | h
      · left
        rw [heq]
        exact h
      · right
        rw [heq]
        exact List.mem_cons_of_mem _ h

/-- A band of `normalizeEnergyMap` attains 1 as soon as some raw value
reaches the `0.001` floor. -/
theorem max_normalized_exists {m : List EnergySample} {f : EnergySample → ℚ}
    (hex : ∃ r ∈ m, 1/1000 ≤ f r) :
    ∃ e ∈ m, f e / ((m.map f).foldr max (1/1000)) = 1 := by
  obtain ⟨r, hr, hr1⟩ := hex
  rcases foldr_max_mem (m.map f) (1/1000) with h | h
  · refine ⟨r, hr, ?_⟩
    have hle : f r ≤ (m.map f).foldr max (1/1000) :=
      le_foldr_max (List.mem_map_of_mem f hr) _
    rw [h] at hle ⊢
    rw [le_antisymm hle hr1]
    norm_num
  · obtain ⟨e, he, hfe⟩ := List.mem_map.mp h
    refine ⟨e, he, ?_⟩
    rw [hfe]
    apply div_self
    have hini := init_le_foldr_max (m.map f) (1/1000)
    intro h0
    rw [h0] at hini
    norm_num at hini

/-- A band of `normalizeEnergyMap` attains 1 exactly when some raw value
of that band reaches the `0.001` floor. -/
theorem normalized_max_one_iff {m : List EnergySample} {f : EnergySample → ℚ} :
    (∃ e ∈ m, f e / ((m.map f).foldr max (1/1000)) = 1) ↔
      ∃ r ∈ m, 1/1000 ≤ f r := by
  constructor
  · rintro ⟨e, he, h1⟩
    have hpos : (0 : ℚ) < (m.map f).foldr max (1/1000) :=
      lt_of_lt_of_le (by norm_num) (init_le_foldr_max _ _)
    rw [div_eq_one_iff_eq (ne_of_gt hpos)] at h1
    refine ⟨e, he, ?_⟩
    rw [h1]
    exact init_le_foldr_max _ _
  · exact max_normalized_exists

/-- If no raw value of a band reaches the `0.001` floor, every normalized
value of that band stays strictly below 1: the denominator is pinned at
the floor itself. -/
theorem max_normalized_lt_one {m : List EnergySample} {f : EnergySample → ℚ}
    (hall : ∀ r ∈ m, f r < 1/1000) :
    ∀ e ∈ m, f e / ((m.map f).foldr max (1/1000)) < 1 := by
  have hmax : (m.map f).foldr max (1/1000) = 1/1000 := by
    rcases foldr_max_mem (m.map f) (1/1000) with h | h
    · exact h
    · obtain ⟨r, hr, hfr⟩ := List.mem_map.mp h
      have h1 := hall r hr
      have h2 := init_le_foldr_max (m.map f) (1/1000)
      rw [hfr] at h1
      linarith
  intro e he
  rw [hmax, div_lt_one (by norm_num)]
  exact hall e he

theorem normalized_band_bounds {m : List EnergySample} {f : EnergySample → ℚ}
    (hnn : ∀ e ∈ m, 0 ≤ f e) :
    ∀ e ∈ m, 0 ≤ f e / ((m.map f).foldr max (1/1000)) ∧
      f e / ((m.map f).foldr max (1/1000)) ≤ 1 := by
  intro e he
  have hpos : (0 : ℚ) < (m.map f).foldr max (1/1000) :=
    lt_of_lt_of_le (by norm_num) (init_le_foldr_max _ _)
  constructor
  · exact div_nonneg (hnn e he) (le_of_lt hpos)
  · rw [div_le_one hpos]
    exact le_foldr_max (List.mem_map_of_mem f he) _

/-- `normalizeEnergyMap` as an explicit map. -/
theorem normalizeEnergyMap_eq_map (m : List EnergySample) :
    normalizeEnergyMap m = m.map (fun e =>
      { time := e.time
        bass := e.bass / ((m.map (·.bass)).foldr max (1/1000))
        mid := e.mid / ((m.map (·.mid)).foldr max (1/1000))
        treble := e.treble / ((m.map (·.treble)).foldr max (1/1000))
        total := e.total / ((m.map (·.total)).foldr max (1/1000)) }) := rfl

theorem energyLoop_band_nonneg {sqrtFn : ℚ → ℚ} (hsq : ∀ x, 0 ≤ sqrtFn x)
    {rate w hop : ℕ} {data : List ℚ} :
    ∀ {i : ℕ}, ∀ e ∈ energyLoop sqrtFn rate w hop data i,
      0 ≤ e.bass ∧ 0 ≤ e.mid ∧ 0 ≤ e.treble ∧ 0 ≤ e.total := by
  intro i
  induction i using energyLoop.induct sqrtFn rate w hop data with
  | case1 i h ih =>
    intro e he
    rw [energyLoop, dif_pos h] at he
    rcases List.mem_cons.mp he with rfl | he'
    · refine ⟨?_, ?_, ?_, ?_⟩ <;>
        exact mul_nonneg (hsq _) (by norm_num)
    · exact ih e he'
  | case2 i h =>
    intro e he
    rw [energyLoop, dif_neg h] at he
    cases he

/-- **C4 (amended).** For every square-root model that is non-negative
(as the real square root is): all band values of the analyzer output lie
in `[0, 1]`; for each band (total, bass, mid, treble), some normalized
value equals 1 — i.e. the band's maximum is 1 — **if and only if** some
raw (pre-normalization) value of that band reaches the `0.001` floor of
`Math.max(..., 0.001)`; and when every raw value of a band stays below
the floor (a near-silent band), every normalized value of that band is
strictly below 1, so its maximum is below 1. -/
theorem energy_normalization (sqrtFn : ℚ → ℚ) (rate : ℕ) (data : List ℚ)
    (hsq : ∀ x, 0 ≤ sqrtFn x) :
    (∀ e ∈ analyzeEnergy sqrtFn rate data,
      (0 ≤ e.bass ∧ e.bass ≤ 1) ∧ (0 ≤ e.mid ∧ e.mid ≤ 1) ∧
      (0 ≤ e.treble ∧ e.treble ≤ 1) ∧ (0 ≤ e.total ∧ e.total ≤ 1)) ∧
    ((∃ e ∈ analyzeEnergy sqrtFn rate data, e.total = 1) ↔
      ∃ r ∈ energyLoop sqrtFn rate (rate / 20) (rate / 40) data 0,
        1/1000 ≤ r.total) ∧
    ((∃ e ∈ analyzeEnergy sqrtFn rate data, e.bass = 1) ↔
      ∃ r ∈ energyLoop sqrtFn rate (rate / 20) (rate / 40) data 0,
        1/1000 ≤ r.bass) ∧
    ((∃ e ∈ analyzeEnergy sqrtFn rate data, e.mid = 1) ↔
      ∃ r ∈ energyLoop sqrtFn rate (rate / 20) (rate / 40) data 0,
        1/1000 ≤ r.mid) ∧
    ((∃ e ∈ analyzeEnergy sqrtFn rate data, e.treble = 1) ↔
      ∃ r ∈ energyLoop sqrtFn rate (rate / 20) (rate / 40) data 0,
        1/1000 ≤ r.treble) ∧
    ((∀ r ∈ energyLoop sqrtFn rate (rate / 20) (rate / 40) data 0,
        r.total < 1/1000) →
      ∀ e ∈ analyzeEnergy sqrtFn rate data, e.total < 1) ∧
    ((∀ r ∈ energyLoop sqrtFn rate (rate / 20) (rate / 40) data 0,
        r.bass < 1/1000) →
      ∀ e ∈ analyzeEnergy sqrtFn rate data, e.bass < 1) ∧
    ((∀ r ∈ energyLoop sqrtFn rate (rate / 20) (rate / 40) data 0,
        r.mid < 1/1000) →
      ∀ e ∈ analyzeEnergy sqrtFn rate data, e.mid < 1) ∧
    ((∀ r ∈ energyLoop sqrtFn rate (rate / 20) (rate / 40) data 0,
        r.treble < 1/1000) →
      ∀ e ∈ analyzeEnergy sqrtFn rate data, e.treble < 1) := by
  set raw := energyLoop sqrtFn rate (rate / 20) (rate / 40) data 0 with hraw
  have hnn := @energyLoop_band_nonneg sqrtFn hsq rate (rate / 20)
    (rate / 40) data 0
  rw [← hraw] at hnn
  have hana : analyzeEnergy sqrtFn rate data = normalizeEnergyMap raw := rfl
  refine ⟨?_, ?_, ?_, ?_, ?_, ?_, ?_, ?_, ?_⟩
  · intro e he
    rw [hana, normalizeEnergyMap_eq_map] at he
    obtain ⟨a, ha, rfl⟩ := List.mem_map.mp he
    refine ⟨⟨?_, ?_⟩, ⟨?_, ?_⟩, ⟨?_, ?_⟩, ⟨?_, ?_⟩⟩
    · exact (normalized_band_bounds (fun x hx => (hnn x hx).1) a ha).1
    · exact (normalized_band_bounds (fun x hx => (hnn x hx).1) a ha).2
    · exact (normalized_band_bounds (fun x hx => (hnn x hx).2.1) a ha).1
    · exact (normalized_band_bounds (fun x hx => (hnn x hx).2.1) a ha).2
    · exact (normalized_band_bounds (fun x hx => (hnn x hx).2.2.1) a ha).1
    · exact (normalized_band_bounds (fun x hx => (hnn x hx).2.2.1) a ha).2
    · exact (normalized_band_bounds (fun x hx => (hnn x hx).2.2.2) a ha).1
    · exact (normalized_band_bounds (fun x hx => (hnn x hx).2.2.2) a ha).2
  · rw [hana, normalizeEnergyMap_eq_map]
    constructor
    · rintro ⟨e, he, h1⟩
      obtain ⟨r, hr, rfl⟩ := List.mem_map.mp he
      exact (normalized_max_one_iff (f := (·.total))).mp ⟨r, hr, h1⟩
    · intro hex
      obtain ⟨e, he, h1⟩ := max_normalized_exists (f := (·.total)) hex
      exact ⟨_, List.mem_map_of_mem _ he, by simpa using h1⟩
  · rw [hana, normalizeEnergyMap_eq_map]
    constructor
    · rintro ⟨e, he, h1⟩
      obtain ⟨r, hr, rfl⟩ := List.mem_map.mp he
      exact (normalized_max_one_iff (f := (·.bass))).mp ⟨r, hr, h1⟩
    · intro hex
      obtain ⟨e, he, h1⟩ := max_normalized_exists (f := (·.bass)) hex
      exact ⟨_, List.mem_map_of_mem _ he, by simpa using h1⟩
  · rw [hana, normalizeEnergyMap_eq_map]
    constructor
    · rintro ⟨e, he, h1⟩
      obtain ⟨r, hr, rfl⟩ := List.mem_map.mp he
      exact (normalized_max_one_iff (f := (·.mid))).mp ⟨r, hr, h1⟩
    · intro hex
      obtain ⟨e, he, h1⟩ := max_normalized_exists (f := (·.mid)) hex
      exact ⟨_, List.mem_map_of_mem _ he, by simpa using h1⟩
  · rw [hana, normalizeEnergyMap_eq_map]
    constructor
    · rintro ⟨e, he, h1⟩
      obtain ⟨r, hr, rfl⟩ := List.mem_map.mp he
      exact (normalized_max_one_iff (f := (·.treble))).mp ⟨r, hr, h1⟩
    · intro hex
      obtain ⟨e, he, h1⟩ := max_normalized_exists (f := (·.treble)) hex
      exact ⟨_, List.mem_map_of_mem _ he, by simpa using h1⟩
  · intro hall e he
    rw [hana, normalizeEnergyMap_eq_map] at he
    obtain ⟨r, hr, rfl⟩ := List.mem_map.mp he
    exact max_normalized_lt_one (f := (·.total)) hall r hr
  · intro hall e he
    rw [hana, normalizeEnergyMap_eq_map] at he
    obtain ⟨r, hr, rfl⟩ := List.mem_map.mp he
    exact max_normalized_lt_one (f := (·.bass)) hall r hr
  · intro hall e he
    rw [hana, normalizeEnergyMap_eq_map] at he
    obtain ⟨r, hr, rfl⟩ := List.mem_map.mp he
    exact max_normalized_lt_one (f := (·.mid)) hall r hr
  · intro hall e he
    rw [hana, normalizeEnergyMap_eq_map] at he
    obtain ⟨r, hr, rfl⟩ := List.mem_map.mp he
    exact max_normalized_lt_one (f := (·.treble)) hall r hr

theorem energyLoop_step {sqrtFn : ℚ → ℚ} {rate w hop : ℕ} {data : List ℚ} {i : ℕ}
    (h : 0 < hop ∧ i + w < data.length) :
    energyLoop sqrtFn rate w hop data i =
      windowSample sqrtFn rate i ((data.drop i).take w) ::
        energyLoop sqrtFn rate w hop data (i + hop) := by
  rw [energyLoop, dif_pos h]

theorem energyLoop_stop {sqrtFn : ℚ → ℚ} {rate w hop : ℕ} {data : List ℚ} {i : ℕ}
    (h : ¬(0 < hop ∧ i + w < data.length)) :
    energyLoop sqrtFn rate w hop data i = [] := by
  rw [energyLoop, dif_neg h]

theorem ratSqrt_zero : ratSqrt 0 = 0 := by
  norm_num [ratSqrt]

theorem ratSqrt_nonneg : ∀ x : ℚ, 0 ≤ ratSqrt x := by
  intro x
  unfold ratSqrt
  positivity

theorem band_sum_zero (n : ℕ) (p : ℕ × ℚ → Bool) :
    ((((List.replicate n (0:ℚ)).enum.filter p).map (·.2)).sum) = 0 := by
  apply List.sum_eq_zero
  intro x hx
  obtain ⟨q, hq, rfl⟩ := List.mem_map.mp hx
  have hq' : q ∈ (List.replicate n (0:ℚ)).enum := List.mem_of_mem_filter hq
  rw [List.mem_enum_iff_getElem?] at hq'
  have hmem := List.getElem?_mem hq'
  exact List.eq_of_mem_replicate hmem

set_option maxRecDepth 10000 in
theorem windowSample_zero (sqrtFn : ℚ → ℚ) (hs0 : sqrtFn 0 = 0)
    (rate i n : ℕ) :
    windowSample sqrtFn rate i (List.replicate n (0:ℚ)) =
      ⟨(i : ℚ) / (rate : ℚ), 0, 0, 0, 0⟩ := by
  simp only [windowSample, List.length_replicate, List.take_replicate,
    List.map_replicate]
  norm_num [band_sum_zero, hs0]

set_option maxRecDepth 10000 in
/-- The analyzer output for 401 samples of silence at 8 kHz: a single
all-zero sample. -/
theorem silent_eval :
    analyzeEnergy ratSqrt 8000 silent401 = [⟨0, 0, 0, 0, 0⟩] := by
  have hlen : silent401.length = 401 := by simp [silent401]
  have h1 : energyLoop ratSqrt 8000 400 200 silent401 0 =
      [windowSample ratSqrt 8000 0 ((silent401.drop 0).take 400)] := by
    rw [energyLoop_step (by rw [hlen]; norm_num),
      energyLoop_stop (by rw [hlen]; norm_num)]
  have h2 : (silent401.drop 0).take 400 = List.replicate 400 (0:ℚ) := by
    simp [silent401, List.take_replicate]
  show normalizeEnergyMap (energyLoop ratSqrt 8000 (8000/20) (8000/40) silent401 0) = _
  norm_num
  rw [h1, h2, windowSample_zero ratSqrt ratSqrt_zero]
  norm_num [normalizeEnergyMap]

/-- Counterexample to C4 as stated: 401 samples of digital silence at
8 kHz give a non-empty energy sequence (one sample) in which every
normalized band value is 0 — the maximum of `total` is 0, not 1 —
because the raw band maxima fall below the 0.001 floor of
`Math.max(..., 0.001)` (audio.js lines 138-141). -/
theorem energy_normalization_cex :
    analyzeEnergy ratSqrt 8000 silent401 ≠ [] ∧
    ∀ e ∈ analyzeEnergy ratSqrt 8000 silent401,
      e.total = 0 ∧ e.bass = 0 ∧ e.mid = 0 ∧ e.treble = 0 := by
  rw [silent_eval]
  constructor
  · simp
  · intro e he
    simp only [List.mem_singleton] at he
    subst he
    norm_num

/-- Witness for the amended C4: four full-scale samples at 60 Hz. -/
theorem energy_normalization_witness :
    (∀ e ∈ analyzeEnergy ratSqrt 60 [1, 1, 1, 1],
      (0 ≤ e.bass ∧ e.bass ≤ 1) ∧ (0 ≤ e.mid ∧ e.mid ≤ 1) ∧
      (0 ≤ e.treble ∧ e.treble ≤ 1) ∧ (0 ≤ e.total ∧ e.total ≤ 1)) ∧
    ((∃ e ∈ analyzeEnergy ratSqrt 60 [1, 1, 1, 1], e.total = 1) ↔
      ∃ r ∈ energyLoop ratSqrt 60 (60 / 20) (60 / 40) [1, 1, 1, 1] 0,
        1/1000 ≤ r.total) ∧
    ((∃ e ∈ analyzeEnergy ratSqrt 60 [1, 1, 1, 1], e.bass = 1) ↔
      ∃ r ∈ energyLoop ratSqrt 60 (60 / 20) (60 / 40) [1, 1, 1, 1] 0,
        1/1000 ≤ r.bass) ∧
    ((∃ e ∈ analyzeEnergy ratSqrt 60 [1, 1, 1, 1], e.mid = 1) ↔
      ∃ r ∈ energyLoop ratSqrt 60 (60 / 20) (60 / 40) [1, 1, 1, 1] 0,
        1/1000 ≤ r.mid) ∧
    ((∃ e ∈ analyzeEnergy ratSqrt 60 [1, 1, 1, 1], e.treble = 1) ↔
      ∃ r ∈ energyLoop ratSqrt 60 (60 / 20) (60 / 40) [1, 1, 1, 1] 0,
        1/1000 ≤ r.treble) ∧
    ((∀ r ∈ energyLoop ratSqrt 60 (60 / 20) (60 / 40) [1, 1, 1, 1] 0,
        r.total < 1/1000) →
      ∀ e ∈ analyzeEnergy ratSqrt 60 [1, 1, 1, 1], e.total < 1) ∧
    ((∀ r ∈ energyLoop ratSqrt 60 (60 / 20) (60 / 40) [1, 1, 1, 1] 0,
        r.bass < 1/1000) →
      ∀ e ∈ analyzeEnergy ratSqrt 60 [1, 1, 1, 1], e.bass < 1) ∧
    ((∀ r ∈ energyLoop ratSqrt 60 (60 / 20) (60 / 40) [1, 1, 1, 1] 0,
        r.mid < 1/1000) →
      ∀ e ∈ analyzeEnergy ratSqrt 60 [1, 1, 1, 1], e.mid < 1) ∧
    ((∀ r ∈ energyLoop ratSqrt 60 (60 / 20) (60 / 40) [1, 1, 1, 1] 0,
        r.treble < 1/1000) →
      ∀ e ∈ analyzeEnergy ratSqrt 60 [1, 1, 1, 1], e.treble < 1) :=
  energy_normalization ratSqrt 60 [1, 1, 1, 1] ratSqrt_nonneg

/-! ## First-five characterization (C7) -/

theorem halfOpen_shares_succ (n : ℕ) (hn : 1 ≤ n) :
    (n % 6) ∈ PATTERNS.halfOpen n ∧ (n % 6) ∈ PATTERNS.halfOpen (n - 1) := by
  constructor
  · simp [PATTERNS.halfOpen]
  · have : (n - 1) + 1 = n := by omega
    simp only [PATTERNS.halfOpen, List.mem_cons]
    right
    left
    rw [this]

theorem get_append_singleton_left {l : List SpawnEvent} {x : SpawnEvent} {i : ℕ}
    (h : i < (l ++ [x]).length) (hi : i < l.length) :
    (l ++ [x]).get ⟨i, h⟩ = l.get ⟨i, hi⟩ := by
  simp only [List.get_eq_getElem]
  exact List.getElem_append_left hi

theorem get_append_singleton_right {l : List SpawnEvent} {x : SpawnEvent}
    (h : l.length < (l ++ [x]).length) :
    (l ++ [x]).get ⟨l.length, h⟩ = x := by
  simp only [List.get_eq_getElem]
  exact List.getElem_concat_length l x l.length rfl h

/-- Appending one event preserves `FirstFiveInv`, given the new event's
characterization when it lands on an index below 5. -/
theorem FirstFiveInv_append {A : AudioData} {s : GenS} {ev : SpawnEvent}
    {lt2 : ℚ} {spi2 ph2 rix2 : ℕ}
    (hphase : s.events.length < 5 → s.patternPhase = s.events.length)
    (hchar : ∀ i (h : i < s.events.length), i < 5 →
      (s.events.get ⟨i, h⟩).gaps = PATTERNS.halfOpen i ∧
      (s.events.get ⟨i, h⟩).speed =
        (if (7/10 : ℚ) < (getEnergyAt A (s.events.get ⟨i, h⟩).time).bass
          then baseSpeed * (8/10) * (12/10) else baseSpeed * (8/10)))
    (hev_gaps : s.events.length < 5 →
      ev.gaps = PATTERNS.halfOpen s.events.length)
    (hev_speed : s.events.length < 5 →
      ev.speed = (if (7/10 : ℚ) < (getEnergyAt A ev.time).bass
        then baseSpeed * (8/10) * (12/10) else baseSpeed * (8/10)))
    (hph2 : s.events.length + 1 < 5 → ph2 = s.events.length + 1) :
    FirstFiveInv A
      { events := s.events ++ [ev], lastEventTime := lt2,
        spiralDirection := spi2, patternPhase := ph2,
        lastGaps := some ev.gaps, rix := rix2 } := by
  refine ⟨?_, ?_, ?_⟩
  · intro hlen2
    show ph2 = (s.events ++ [ev]).length
    simp only [List.length_append, List.length_singleton] at hlen2 ⊢
    exact hph2 (by simpa using hlen2)
  · intro i h hi5
    show ((s.events ++ [ev]).get ⟨i, h⟩).gaps = PATTERNS.halfOpen i ∧
      ((s.events ++ [ev]).get ⟨i, h⟩).speed =
        (if (7/10 : ℚ) < (getEnergyAt A ((s.events ++ [ev]).get ⟨i, h⟩).time).bass
          then baseSpeed * (8/10) * (12/10) else baseSpeed * (8/10))
    have hlen : i < s.events.length + 1 := by
      simpa using h
    by_cases hilt : i < s.events.length
    · rw [get_append_singleton_left h hilt]
      exact hchar i hilt hi5
    · have hieq : i = s.events.length := by omega
      subst hieq
      rw [get_append_singleton_right h]
      exact ⟨hev_gaps hi5, hev_speed hi5⟩
  · show some ev.gaps = ((s.events ++ [ev]).getLast?).map (fun x => x.gaps)
    rw [List.getLast?_concat]
    rfl

theorem processBeat_firstFive {A : AudioData} {rng : ℕ → ℚ} {s : GenS} {b : ℚ}
    (hs : FirstFiveInv A s) : FirstFiveInv A (processBeat A rng s b) := by
  obtain ⟨hphase, hchar, hlast⟩ := hs
  rcases processBeat_shape A rng s b with h | h | ⟨p0, sp, ph, spi, rix, heq, _, _, hbr⟩
  · rw [h]; exact ⟨hphase, hchar, hlast⟩
  · rw [h]; exact ⟨hphase, hchar, hlast⟩
  rw [heq, emitEvent_def]
  rcases hbr with ⟨h5, hp0, hsp, hph⟩ | ⟨h5, -, -⟩
  · -- the first-five branch
    subst hp0 hsp hph
    have hphn : s.patternPhase = s.events.length := hphase h5
    have hfix : fixupPattern s.lastGaps (rng rix) (PATTERNS.halfOpen s.patternPhase)
        = PATTERNS.halfOpen s.patternPhase := by
      rcases hev : s.events with - | ⟨e0, rest⟩
      · rw [hlast, hev]
        rfl
      · have hlen1 : 1 ≤ s.events.length := by
          rw [hev]; simp
        have hget : s.events.getLast? =
            some (s.events.get ⟨s.events.length - 1, by omega⟩) := by
          rw [List.getLast?_eq_get? s.events, List.get?_eq_get (by omega)]
        have hlastgaps : s.lastGaps =
            some ((s.events.get ⟨s.events.length - 1, by omega⟩).gaps) := by
          rw [hlast, hget]
          rfl
        have hprevgaps := (hchar (s.events.length - 1) (by omega) (by omega)).1
        rw [hlastgaps, hprevgaps, hphn]
        rcases halfOpen_shares_succ s.events.length hlen1 with ⟨hm1, hm2⟩
        exact fixupPattern_of_shared (rng rix) hm1 hm2
    exact FirstFiveInv_append hphase hchar
      (fun _ => by rw [hfix, hphn])
      (fun _ => rfl)
      (fun _ => by rw [hphn]; exact Nat.mod_eq_of_lt (by omega))
  · -- at least five events already: indices below 5 are untouched
    exact FirstFiveInv_append hphase hchar
      (fun hlt => absurd hlt (by omega))
      (fun hlt => absurd hlt (by omega))
      (fun hlt => absurd hlt (by omega))

theorem beatPass_firstFive (A : AudioData) (rng : ℕ → ℚ) :
    FirstFiveInv A (beatPass A rng) := by
  unfold beatPass
  refine List.foldlRecOn A.beatTimes (processBeat A rng) (initGenS A) ?_ ?_
  · exact ⟨fun _ => rfl, fun i h => absurd h (by simp [initGenS]), rfl⟩
  · intro s hs b _
    exact processBeat_firstFive hs

/-- **C7 (amended).** Each of the first 5 emitted SpawnEvents uses the
`halfOpen` pattern with the rotation phase advancing by 1 each event
(event `i` opens sides `i, i+1, i+2` mod 6), and its speed is
`0.8 × baseSpeed` — multiplied by 1.2 exactly when the bass energy at
the beat exceeds 0.7: the strong-beat boost of levelGenerator.js lines
141-144 applies to the first 5 events too, contrary to the claim's
"regardless of the energy at the beat". -/
theorem first_five_events (A : AudioData) (rng : ℕ → ℚ) (i : ℕ) (hi : i < 5)
    (h : i < (beatPass A rng).events.length) :
    ((beatPass A rng).events.get ⟨i, h⟩).gaps = PATTERNS.halfOpen i ∧
    ((beatPass A rng).events.get ⟨i, h⟩).speed =
      (if (7/10 : ℚ) <
          (getEnergyAt A ((beatPass A rng).events.get ⟨i, h⟩).time).bass
        then baseSpeed * (8/10) * (12/10) else baseSpeed * (8/10)) :=
  (beatPass_firstFive A rng).2.1 i h hi

/-- Counterexample to C7 as stated: on `track1` the first emitted event
sits at a beat whose bass energy is `0.8 > 0.7`, so its speed is
`0.96 × baseSpeed = 144/25`, not `0.8 × baseSpeed` — the first 5 events
are not exempt from the strong-beat boost. -/
theorem first_five_events_cex :
    ((beatPass track1 rng0).events.map (·.speed)) = [144/25] ∧
    (144/25 : ℚ) ≠ baseSpeed * (8/10) := by
  constructor
  · rw [track1_beatPass_eq]
    rfl
  · norm_num [baseSpeed]

/-- Witness for the amended C7 at event 0 of `track1`. -/
theorem first_five_events_witness :
    ((beatPass track1 rng0).events.get
        ⟨0, by rw [track1_beatPass_eq]; norm_num⟩).gaps = PATTERNS.halfOpen 0 ∧
    ((beatPass track1 rng0).events.get
        ⟨0, by rw [track1_beatPass_eq]; norm_num⟩).speed =
      (if (7/10 : ℚ) < (getEnergyAt track1
          ((beatPass track1 rng0).events.get
            ⟨0, by rw [track1_beatPass_eq]; norm_num⟩).time).bass
        then baseSpeed * (8/10) * (12/10) else baseSpeed * (8/10)) :=
  first_five_events track1 rng0 0 (by norm_num)
    (by rw [track1_beatPass_eq]; norm_num)

/-! ## Speed bounds (C9) -/

theorem processBeat_speed {A : AudioData} {rng : ℕ → ℚ} {s : GenS} {b : ℚ}
    (hdur : 0 < A.duration) (hs : SpeedInv s) :
    SpeedInv (processBeat A rng s b) := by
  rcases processBeat_shape A rng s b with h | h | ⟨p0, sp, ph, spi, rix, heq, hgr, _, hbr⟩
  · rw [h]; exact hs
  · intro e he; rw [h] at he; exact hs e he
  · intro e he
    rw [heq] at he
    rcases emitEvent_mem_events he with h' | h'
    · exact hs e h'
    have hb0 : (0 : ℚ) < b := by
      have : (0 : ℚ) < gracePeriod := by norm_num [gracePeriod, spawnRadius, baseSpeed]
      linarith
    have hd0 : (0 : ℚ) ≤ min (b / A.duration) 1 :=
      le_min (le_of_lt (div_pos hb0 hdur)) (by norm_num)
    have hsp : (7/10) * baseSpeed ≤ sp := by
      rcases hbr with ⟨-, -, hsp, -⟩ | ⟨-, -, hsps⟩
      · rw [hsp, baseSpeed]; norm_num
      · rcases hsps with h1 | h1 | h1 | h1 <;> rw [h1, baseSpeed] <;> nlinarith
    subst h'
    show (7/10) * baseSpeed ≤ if (7/10 : ℚ) < (getEnergyAt A b).bass
      then sp * (12/10) else sp
    have hsp0 : (0 : ℚ) ≤ sp := by
      have : (0 : ℚ) < (7/10) * baseSpeed := by norm_num [baseSpeed]
      linarith
    split
    · nlinarith
    · exact hsp

theorem beatPass_speed (A : AudioData) (rng : ℕ → ℚ) (hdur : 0 < A.duration) :
    SpeedInv (beatPass A rng) := by
  unfold beatPass
  refine List.foldlRecOn A.beatTimes (processBeat A rng) (initGenS A) ?_ ?_
  · intro e he
    simp [initGenS] at he
  · intro s hs b _
    exact processBeat_speed hdur hs

/-- **C9.** Every generated SpawnEvent has speed at least
`0.63 × baseSpeed` (the minimum over all branches, attained by the
very-low-energy `0.7×` branch reduced by the sub-beat `0.9×`), hence
strictly positive, and consequently `spawnTime < time`. -/
theorem generate_speed_positive (A : AudioData) (rng : ℕ → ℚ)
    (hdur : 0 < A.duration) :
    ∀ e ∈ generateEvents A rng,
      (63/100) * baseSpeed ≤ e.speed ∧ 0 < e.speed ∧ e.spawnTime < e.time := by
  intro e he
  unfold generateEvents at he
  rw [mem_sortBySpawnTime, mem_sortBySpawnTime, List.mem_append] at he
  have key : (63/100) * baseSpeed ≤ e.speed ∧
      e.time - e.spawnTime = spawnRadius / e.speed := by
    rcases he with he | he
    · refine ⟨?_, beatPass_travel A rng e he⟩
      have := beatPass_speed A rng hdur e he
      rw [baseSpeed] at this ⊢
      linarith
    · obtain ⟨a, b', ha, _, _, hx⟩ := mem_subBeatsAux he
      have hsa := beatPass_speed A rng hdur a ha
      subst hx
      constructor
      · show (63/100) * baseSpeed ≤ a.speed * (9/10)
        rw [baseSpeed] at hsa ⊢
        linarith
      · simp [mkSubEvent]
  have hspos : (0 : ℚ) < e.speed := by
    have : (0 : ℚ) < (63/100) * baseSpeed := by norm_num [baseSpeed]
    linarith [key.1]
  refine ⟨key.1, hspos, ?_⟩
  have htrav : (0 : ℚ) < spawnRadius / e.speed := by
    apply div_pos _ hspos
    norm_num [spawnRadius]
  linarith [key.2]

/-- Witness for C9 on `track1`. -/
theorem generate_speed_positive_witness :
    0 < track1.duration ∧
    ∀ e ∈ generateEvents track1 rng0,
      (63/100) * baseSpeed ≤ e.speed ∧ 0 < e.speed ∧ e.spawnTime < e.time :=
  ⟨by norm_num [track1], generate_speed_positive track1 rng0 (by norm_num [track1])⟩

/-! ## Gap-set invariants (C10) -/

/-- Every nominal pattern shape is non-empty, duplicate-free, has at
most 3 sides, all below 6. -/
theorem patternShape_good {p0 : List ℕ} (hp : IsPatternShape p0) :
    p0 ≠ [] ∧ p0.Nodup ∧ p0.length ≤ 3 ∧ ∀ g ∈ p0, g < 6 := by
  obtain ⟨k, hk⟩ := hp
  rcases hk with h | h | h | h | h | h | h <;> subst h <;>
    refine ⟨by simp [PATTERNS.single, PATTERNS.opposite, PATTERNS.adjacent,
        PATTERNS.halfOpen, PATTERNS.narrow, PATTERNS.wide, PATTERNS.alternating],
      ?_, by simp [PATTERNS.single, PATTERNS.opposite, PATTERNS.adjacent,
        PATTERNS.halfOpen, PATTERNS.narrow, PATTERNS.wide, PATTERNS.alternating],
      ?_⟩ <;>
    simp only [PATTERNS.single, PATTERNS.opposite, PATTERNS.adjacent,
      PATTERNS.halfOpen, PATTERNS.narrow, PATTERNS.wide, PATTERNS.alternating,
      List.nodup_cons, List.mem_cons, List.mem_singleton, List.not_mem_nil,
      List.nodup_nil, and_true, not_or, or_false, not_false_iff] <;>
    omega

theorem fixup_good {lg? : Option (List ℕ)} {r : ℚ} {p0 : List ℕ}
    (hp0 : p0 ≠ [] ∧ p0.Nodup ∧ p0.length ≤ 3 ∧ ∀ g ∈ p0, g < 6)
    (hlg : ∀ lg, lg? = some lg → GapsGood lg)
    (hr : 0 ≤ r ∧ r < 1) :
    GapsGood (fixupPattern lg? r p0) := by
  obtain ⟨hne, hnd, hlen, hmem⟩ := hp0
  rcases fixupPattern_cases lg? r p0 with h | ⟨lg, hlg?, -, h, hnotin⟩
  · exact ⟨by rw [h]; exact hne, by rw [h]; exact hnd,
      by rw [h]; omega, by rw [h]; exact hmem⟩
  · have hlggood := hlg lg hlg?
    have hgood : lg.getD (jsIndex r lg.length) 0 ∈ lg :=
      getD_jsIndex_mem lg r hlggood.1 hr.1 hr.2
    rw [h]
    refine ⟨by simp, ?_, ?_, ?_⟩
    · rw [List.nodup_append]
      exact ⟨hnd, List.nodup_singleton _,
        fun a ha hb => by rw [List.mem_singleton] at hb; subst hb; exact hnotin ha⟩
    · rw [List.length_append, List.length_singleton]
      omega
    · intro g hg
      rcases List.mem_append.mp hg with hg | hg
      · exact hmem g hg
      · rw [List.mem_singleton] at hg
        subst hg
        exact hlggood.2.2.2 _ hgood

theorem processBeat_gaps {A : AudioData} {rng : ℕ → ℚ} {s : GenS} {b : ℚ}
    (hrng : ∀ n, 0 ≤ rng n ∧ rng n < 1) (hs : GapsInv s) :
    GapsInv (processBeat A rng s b) := by
  obtain ⟨hev, hlg⟩ := hs
  rcases processBeat_shape A rng s b with h | h | ⟨p0, sp, ph, spi, rix, heq, -, -, hbr⟩
  · rw [h]; exact ⟨hev, hlg⟩
  · rw [h]; exact ⟨hev, hlg⟩
  rw [heq, emitEvent_def]
  have hp0 : p0 ≠ [] ∧ p0.Nodup ∧ p0.length ≤ 3 ∧ ∀ g ∈ p0, g < 6 := by
    rcases hbr with ⟨-, hp0, -, -⟩ | ⟨-, hshape, -⟩
    · subst hp0
      exact patternShape_good ⟨s.patternPhase, by tauto⟩
    · exact patternShape_good hshape
  have hfixgood : GapsGood (fixupPattern s.lastGaps (rng rix) p0) :=
    fixup_good hp0 hlg (hrng rix)
  constructor
  · intro e he
    rcases List.mem_append.mp he with he | he
    · exact hev e he
    · simp only [List.mem_singleton] at he
      subst he
      exact hfixgood
  · intro lg hlg2
    simp only [Option.some.injEq] at hlg2
    subst hlg2
    exact hfixgood

theorem beatPass_gaps (A : AudioData) (rng : ℕ → ℚ)
    (hrng : ∀ n, 0 ≤ rng n ∧ rng n < 1) : GapsInv (beatPass A rng) := by
  unfold beatPass
  refine List.foldlRecOn A.beatTimes (processBeat A rng) (initGenS A) ?_ ?_
  · exact ⟨fun e he => by simp [initGenS] at he, fun lg h => by simp [initGenS] at h⟩
  · intro s hs b _
    exact processBeat_gaps hrng hs

/-- **C10.** Every generated SpawnEvent's gaps field is a non-empty list
of pairwise-distinct side indices in `{0, …, 5}` with between 1 and 4
entries (the passability fix-up adds at most one side beyond the
nominal shape and never a side already present). -/
theorem generate_gaps_wellformed (A : AudioData) (rng : ℕ → ℚ)
    (hrng : ∀ n, 0 ≤ rng n ∧ rng n < 1) :
    ∀ e ∈ generateEvents A rng,
      e.gaps ≠ [] ∧ e.gaps.Nodup ∧ 1 ≤ e.gaps.length ∧ e.gaps.length ≤ 4 ∧
        ∀ g ∈ e.gaps, g < 6 := by
  intro e he
  unfold generateEvents at he
  rw [mem_sortBySpawnTime, mem_sortBySpawnTime, List.mem_append] at he
  have hgood : GapsGood e.gaps := by
    rcases he with he | he
    · exact (beatPass_gaps A rng hrng).1 e he
    · obtain ⟨a, b', -, -, -, hx⟩ := mem_subBeatsAux he
      subst hx
      show GapsGood (PATTERNS.opposite (a.gaps.headD 0))
      have := patternShape_good
        ⟨a.gaps.headD 0, Or.inr (Or.inl rfl)⟩
      exact ⟨this.1, this.2.1, by omega, this.2.2.2⟩
  obtain ⟨h1, h2, h3, h4⟩ := hgood
  exact ⟨h1, h2, by
    have := List.length_pos.mpr h1
    omega, h3, h4⟩

/-- Witness for C10 on `track1` with the zero stream. -/
theorem generate_gaps_wellformed_witness :
    (∀ n, 0 ≤ rng0 n ∧ rng0 n < 1) ∧
    ∀ e ∈ generateEvents track1 rng0,
      e.gaps ≠ [] ∧ e.gaps.Nodup ∧ 1 ≤ e.gaps.length ∧ e.gaps.length ≤ 4 ∧
        ∀ g ∈ e.gaps, g < 6 :=
  ⟨fun n => by norm_num [rng0],
    generate_gaps_wellformed track1 rng0 (fun n => by norm_num [rng0])⟩

/-! ## Passability of nearby events (C1) -/

/-- Two distinct points of the beat grid differ by at least one
interval. -/
theorem grid_diff_ge {first I : ℚ} (hI : 0 < I) {x y : ℚ}
    (hx : ∃ k : ℕ, x = first + k * I) (hy : ∃ k : ℕ, y = first + k * I)
    (hlt : x < y) : I ≤ y - x := by
  obtain ⟨k1, rfl⟩ := hx
  obtain ⟨k2, rfl⟩ := hy
  have hk : (k1 : ℚ) < k2 := by
    by_contra hcon
    push_neg at hcon
    nlinarith
  have hk' : k1 < k2 := by exact_mod_cast hk
  have h1 : (1 : ℚ) ≤ (k2 : ℚ) - k1 := by
    have : (k1 : ℚ) + 1 ≤ k2 := by exact_mod_cast hk'
    linarith
  nlinarith

/-- A grid gap exceeding one and a half intervals is at least two. -/
theorem grid_diff_ge2 {first I : ℚ} (hI : 0 < I) {x y : ℚ}
    (hx : ∃ k : ℕ, x = first + k * I) (hy : ∃ k : ℕ, y = first + k * I)
    (hgap : I * (3/2) < y - x) : 2 * I ≤ y - x := by
  obtain ⟨k1, rfl⟩ := hx
  obtain ⟨k2, rfl⟩ := hy
  have hk : (k1 : ℚ) < k2 := by
    by_contra hcon
    push_neg at hcon
    nlinarith
  have hk' : k1 < k2 := by exact_mod_cast hk
  have h2 : k1 + 2 ≤ k2 := by
    by_contra hcon
    push_neg at hcon
    have hle : k2 ≤ k1 + 1 := by omega
    have : (k2 : ℚ) ≤ (k1 : ℚ) + 1 := by exact_mod_cast hle
    nlinarith
  have h2' : (k1 : ℚ) + 2 ≤ k2 := by exact_mod_cast h2
  nlinarith

theorem processBeat_time {A : AudioData} {rng : ℕ → ℚ} {s : GenS} {b : ℚ}
    {first : ℚ}
    (hbpm : 0 < A.bpm)
    (hb : ∃ k : ℕ, b = first + k * (60 / (A.bpm : ℚ)))
    (hs : TimeInv first (60 / (A.bpm : ℚ)) s) :
    TimeInv first (60 / (A.bpm : ℚ)) (processBeat A rng s b) := by
  obtain ⟨hgrid, hbound, hsorted⟩ := hs
  have hI : (0 : ℚ) < 60 / (A.bpm : ℚ) := by
    apply div_pos (by norm_num)
    exact_mod_cast hbpm
  rcases processBeat_shape A rng s b with h | h | ⟨p0, sp, ph, spi, rix, heq, -, hmin, -⟩
  · rw [h]; exact ⟨hgrid, hbound, hsorted⟩
  · rw [h]; exact ⟨hgrid, hbound, hsorted⟩
  rw [heq, emitEvent_def]
  have hbgt : s.lastEventTime < b := by nlinarith
  refine ⟨?_, ?_, ?_⟩
  · intro e he
    rcases List.mem_append.mp he with he | he
    · exact hgrid e he
    · rw [List.mem_singleton] at he
      subst he
      exact hb
  · intro e he
    show e.time ≤ b
    rcases List.mem_append.mp he with he | he
    · linarith [hbound e he]
    · rw [List.mem_singleton] at he
      subst he
      exact le_refl b
  · rw [List.pairwise_append]
    refine ⟨hsorted, List.pairwise_singleton _ _, ?_⟩
    intro x hx y hy
    rw [List.mem_singleton] at hy
    subst hy
    show x.time < b
    linarith [hbound x hx]

theorem beatPass_time (A : AudioData) (rng : ℕ → ℚ) (first : ℚ)
    (hbpm : 0 < A.bpm)
    (hbeats : ∀ x ∈ A.beatTimes, ∃ k : ℕ, x = first + k * (60 / (A.bpm : ℚ))) :
    TimeInv first (60 / (A.bpm : ℚ)) (beatPass A rng) := by
  unfold beatPass
  refine List.foldlRecOn A.beatTimes (processBeat A rng) (initGenS A) ?_ ?_
  · exact ⟨fun e he => by simp [initGenS] at he,
      fun e he => by simp [initGenS] at he, by simp [initGenS]⟩
  · intro s hs b hbmem
    exact processBeat_time hbpm (hbeats b hbmem) hs

/-- Every sub-beat event synthesized from a sorted grid-aligned list
headed by `c` arrives at least one interval after `c`. -/
theorem subBeats_time_lb {A : AudioData} {I first : ℚ} (hI : 0 < I) :
    ∀ (l : List SpawnEvent) (c : SpawnEvent),
      (∀ e ∈ c :: l, ∃ k : ℕ, e.time = first + k * I) →
      (c :: l).Pairwise (fun a b => a.time < b.time) →
      ∀ y ∈ subBeatsAux A I (c :: l), c.time + I ≤ y.time := by
  intro l
  induction l with
  | nil =>
    intro c _ _ y hy
    simp [subBeatsAux] at hy
  | cons d l' ih =>
    intro c hgrid hsort y hy
    have hcd : c.time < d.time :=
      List.rel_of_pairwise_cons hsort (List.mem_cons_self d l')
    have hgridc : ∃ k : ℕ, c.time = first + k * I :=
      hgrid c (List.mem_cons_self _ _)
    have hgridd : ∃ k : ℕ, d.time = first + k * I :=
      hgrid d (List.mem_cons_of_mem _ (List.mem_cons_self _ _))
    have hsplit : subBeatsAux A I (c :: d :: l') =
        (if I * (3/2) < d.time - c.time ∧
            (6/10 : ℚ) < (getEnergyAt A (c.time + (d.time - c.time) / 2)).total
          then [mkSubEvent c d] else []) ++ subBeatsAux A I (d :: l') := rfl
    rw [hsplit, List.mem_append] at hy
    rcases hy with hy | hy
    · split at hy
      · rename_i hcond
        rw [List.mem_singleton] at hy
        subst hy
        have hgap2 : 2 * I ≤ d.time - c.time :=
          grid_diff_ge2 hI hgridc hgridd hcond.1
        show c.time + I ≤ c.time + (d.time - c.time) / 2
        linarith
      · simp at hy
    · have hle := ih d (fun e he => hgrid e (List.mem_cons_of_mem _ he))
        (List.Pairwise.sublist (List.sublist_cons_self c (d :: l')) hsort) y hy
      linarith

/-- The core spacing fact: a sorted, grid-aligned event list together
with its sub-beat events has all pairwise arrival times at least one
beat interval apart. -/
theorem events_subs_pairwise {A : AudioData} {I first : ℚ} (hI : 0 < I) :
    ∀ (l : List SpawnEvent),
      (∀ e ∈ l, ∃ k : ℕ, e.time = first + k * I) →
      l.Pairwise (fun a b => a.time < b.time) →
      (l ++ subBeatsAux A I l).Pairwise (fun a b => I ≤ |b.time - a.time|) := by
  have hsymm : ∀ {x y : SpawnEvent},
      (I ≤ |y.time - x.time|) → (I ≤ |x.time - y.time|) := by
    intro x y h
    rwa [abs_sub_comm]
  intro l
  induction l with
  | nil =>
    intro _ _
    simp [subBeatsAux]
  | cons c tail ih =>
    intro hgrid hsort
    rcases tail with - | ⟨d, l'⟩
    · show ([c] ++ subBeatsAux A I [c]).Pairwise _
      show ([c] ++ ([] : List SpawnEvent)).Pairwise _
      simp
    have hcd : c.time < d.time :=
      List.rel_of_pairwise_cons hsort (List.mem_cons_self d l')
    have hgridc : ∃ k : ℕ, c.time = first + k * I :=
      hgrid c (List.mem_cons_self _ _)
    have hgridd : ∃ k : ℕ, d.time = first + k * I :=
      hgrid d (List.mem_cons_of_mem _ (List.mem_cons_self _ _))
    have hgrid' : ∀ e ∈ d :: l', ∃ k : ℕ, e.time = first + k * I :=
      fun e he => hgrid e (List.mem_cons_of_mem _ he)
    have hsort' : (d :: l').Pairwise (fun a b => a.time < b.time) :=
      List.Pairwise.sublist (List.sublist_cons_self c (d :: l')) hsort
    have ihr := ih hgrid' hsort'
    have hdle : ∀ y ∈ d :: l', d.time ≤ y.time := by
      intro y hy
      rcases List.mem_cons.mp hy with rfl | hy
      · exact le_refl _
      · exact le_of_lt (List.rel_of_pairwise_cons hsort' hy)
    have hsub_lb : ∀ y ∈ subBeatsAux A I (d :: l'), d.time + I ≤ y.time :=
      subBeats_time_lb hI l' d hgrid' hsort'
    have hgap1 : I ≤ d.time - c.time := grid_diff_ge hI hgridc hgridd hcd
    -- the optional midpoint event between c and d
    set opt := (if I * (3/2) < d.time - c.time ∧
        (6/10 : ℚ) < (getEnergyAt A (c.time + (d.time - c.time) / 2)).total
      then [mkSubEvent c d] else []) with hopt
    have hsplit : subBeatsAux A I (c :: d :: l') = opt ++ subBeatsAux A I (d :: l') := rfl
    have hopt_mem : ∀ s ∈ opt, s.time = c.time + (d.time - c.time) / 2 ∧
        2 * I ≤ d.time - c.time := by
      intro s hs
      rw [hopt] at hs
      split at hs
      · rename_i hcond
        rw [List.mem_singleton] at hs
        subst hs
        exact ⟨rfl, grid_diff_ge2 hI hgridc hgridd hcond.1⟩
      · simp at hs
    -- transfer along the permutation that moves `opt` next to `c`
    have hperm : ((c :: d :: l') ++ (opt ++ subBeatsAux A I (d :: l'))).Perm
        ((c :: opt) ++ ((d :: l') ++ subBeatsAux A I (d :: l'))) := by
      simp only [List.cons_append]
      refine List.Perm.cons c ?_
      have h1 : ((d :: l') ++ opt).Perm (opt ++ (d :: l')) :=
        List.perm_append_comm
      have h2 := h1.append_right (subBeatsAux A I (d :: l'))
      rw [List.append_assoc, List.append_assoc] at h2
      exact h2
    rw [hsplit]
    rw [List.Perm.pairwise_iff (fun hxy => hsymm hxy) hperm]
    rw [List.pairwise_append]
    refine ⟨?_, ihr, ?_⟩
    · -- c and the optional midpoint are at least I apart
      rw [List.pairwise_cons]
      refine ⟨?_, ?_⟩
      · intro s hs
        obtain ⟨hst, hgap2⟩ := hopt_mem s hs
        rw [hst]
        rw [abs_of_nonneg (by linarith)]
        linarith
      · rw [hopt]
        split
        · exact List.pairwise_singleton _ _
        · exact List.Pairwise.nil
    · -- everything in `c :: opt` is at least I before everything later
      intro x hx y hy
      have hy_lb : d.time ≤ y.time := by
        rcases List.mem_append.mp hy with hy | hy
        · exact hdle y hy
        · linarith [hsub_lb y hy]
      rcases List.mem_cons.mp hx with rfl | hx
      · rw [abs_of_nonneg (by linarith)]
        linarith
      · obtain ⟨hst, hgap2⟩ := hopt_mem x hx
        rw [abs_of_nonneg (by rw [hst]; linarith), hst]
        linarith

/-- Every beat-grid timestamp is `firstBeatTime + k * (60/bpm)` for some
`k`. -/
theorem detectBeats_mem {bpm : ℕ} {energyMap : List EnergySample}
    {duration x : ℚ} (hbpm : 0 < bpm)
    (hx : x ∈ detectBeats bpm energyMap duration) :
    ∃ k : ℕ, x =
      ((energyMap.find? (fun e => decide ((1/2 : ℚ) < e.total))).map
        (·.time)).getD 0 + k * (60 / (bpm : ℚ)) := by
  have hI : (0:ℚ) < 60 / (bpm:ℚ) := by
    apply div_pos (by norm_num)
    exact_mod_cast hbpm
  obtain ⟨n, hn⟩ := List.mem_iff_get?.mp hx
  have hchar := @beatGridAux_get? duration (60 / (bpm : ℚ)) hI n
    (((energyMap.find? (fun e => decide ((1/2 : ℚ) < e.total))).map
      (·.time)).getD 0)
  rw [show detectBeats bpm energyMap duration =
      beatGridAux duration (60 / (bpm:ℚ))
        (((energyMap.find? (fun e => decide ((1/2 : ℚ) < e.total))).map
          (·.time)).getD 0) from rfl] at hn
  rw [hn] at hchar
  split at hchar
  · simp only [Option.some.injEq] at hchar
    exact ⟨n, hchar⟩
  · exact absurd hchar (by simp)

/-- **C1.** For every pair of generated SpawnEvents — in particular
every adjacent pair in arrival-time order — either the arrival times
differ by at least one beat interval `60/bpm` or the gap sets intersect.
In fact the left disjunct always holds when the beat grid comes from
`_detectBeats`: beat-pass events sit on distinct grid points and
sub-beat events sit at midpoints of gaps of at least two intervals, so
any two distinct events are at least one interval apart, and the
claim's "arrival times differ by less than one beat interval" premise
is never satisfied. -/
theorem passability_adjacent_events (A : AudioData) (rng : ℕ → ℚ)
    (hbpm : 0 < A.bpm)
    (hbeats : A.beatTimes = detectBeats A.bpm A.energyMap A.duration) :
    (generateEvents A rng).Pairwise
      (fun a b => 60 / (A.bpm : ℚ) ≤ |b.time - a.time| ∨
        ∃ g, g ∈ a.gaps ∧ g ∈ b.gaps) := by
  have hI : (0:ℚ) < 60 / (A.bpm : ℚ) := by
    apply div_pos (by norm_num)
    exact_mod_cast hbpm
  have hbeatmem : ∀ x ∈ A.beatTimes, ∃ k : ℕ,
      x = ((A.energyMap.find? (fun e => decide ((1/2 : ℚ) < e.total))).map
        (·.time)).getD 0 + k * (60 / (A.bpm:ℚ)) := by
    intro x hx
    rw [hbeats] at hx
    exact detectBeats_mem hbpm hx
  obtain ⟨hgrid, hbound, hsorted⟩ :=
    beatPass_time A rng _ hbpm hbeatmem
  have hmain := events_subs_pairwise (A := A) hI (beatPass A rng).events hgrid hsorted
  have hperm : (generateEvents A rng).Perm
      ((beatPass A rng).events ++
        subBeatsAux A (60 / (A.bpm:ℚ)) (beatPass A rng).events) := by
    show (sortBySpawnTime (sortBySpawnTime ((beatPass A rng).events ++
      subBeatsAux A (60 / (A.bpm:ℚ)) (beatPass A rng).events))).Perm _
    exact (sortBySpawnTime_perm _).trans (sortBySpawnTime_perm _)
  have hsymm : ∀ {x y : SpawnEvent},
      (60 / (A.bpm:ℚ) ≤ |y.time - x.time| ∨ ∃ g, g ∈ x.gaps ∧ g ∈ y.gaps) →
      (60 / (A.bpm:ℚ) ≤ |x.time - y.time| ∨ ∃ g, g ∈ y.gaps ∧ g ∈ x.gaps) := by
    rintro x y (h | ⟨g, h1, h2⟩)
    · left
      rwa [abs_sub_comm]
    · exact Or.inr ⟨g, h2, h1⟩
  rw [List.Perm.pairwise_iff (fun h => hsymm h) hperm]
  exact hmain.imp (fun h => Or.inl h)

/-- Witness for C1 on `track1` (whose beat grid is built by
`_detectBeats`). -/
theorem passability_adjacent_events_witness :
    (generateEvents track1 rng0).Pairwise
      (fun a b => 60 / (track1.bpm : ℚ) ≤ |b.time - a.time| ∨
        ∃ g, g ∈ a.gaps ∧ g ∈ b.gaps) :=
  passability_adjacent_events track1 rng0 (by norm_num [track1]) rfl
